import Mathlib

/-! Verification of the job-execution and artifact-resolution subsystem of the
DeeSweetsAnalytics web application (`src/webapp/app.py`), as a shallow embedding.

Modelling conventions:
* absolute filesystem paths are lists of components (`List String`); the
  filesystem is a boolean existence predicate over such paths;
* machine facilities (uuid generation, the clock, the pwd database) are
  abstract parameters;
* character handling is ASCII (Python's `str` routines are unicode-aware; the
  extra unicode cases are outside this model);
* symbolic links are not modelled, so `Path.resolve` is lexical normalisation;
* the home-directory lookup performed by `Path.expanduser` is modelled by a
  total oracle, i.e. it is assumed to succeed (Python raises `RuntimeError`
  when it cannot; that failure mode is outside this model).
-/

namespace DeeSweets

/-- The ASCII uppercase-to-lowercase pairs. -/
def lowerTable : List (Char × Char) :=
  [('A', 'a'), ('B', 'b'), ('C', 'c'), ('D', 'd'), ('E', 'e'), ('F', 'f'),
   ('G', 'g'), ('H', 'h'), ('I', 'i'), ('J', 'j'), ('K', 'k'), ('L', 'l'),
   ('M', 'm'), ('N', 'n'), ('O', 'o'), ('P', 'p'), ('Q', 'q'), ('R', 'r'),
   ('S', 's'), ('T', 't'), ('U', 'u'), ('V', 'v'), ('W', 'w'), ('X', 'x'),
   ('Y', 'y'), ('Z', 'z')]

/-- ASCII lowercasing of a single character (`str.lower` restricted to ASCII). -/
def lowerChar (c : Char) : Char :=
  match lowerTable.find? (fun p => p.1 == c) with
  | some p => p.2
  | none => c

lemma lowerChar_spec (c : Char) :
    lowerChar c = c ∨ ∃ p ∈ lowerTable, p.1 = c ∧ lowerChar c = p.2 := by
  unfold lowerChar
  cases hf : lowerTable.find? (fun p => p.1 == c) with
  | none => exact Or.inl rfl
  | some p =>
    refine Or.inr ⟨p, List.mem_of_find?_eq_some hf, ?_, rfl⟩
    have := List.find?_some hf
    simpa using this

/-- ASCII lowercasing of a string (`str.lower` restricted to ASCII). -/
def lowerStr (s : String) : String := String.mk (s.data.map lowerChar)

/-- Python `\s` for ASCII text: the characters stripped by `str.strip()` and
excluded by the scanner's character class. -/
def pyWhitespace (c : Char) : Bool :=
  c = ' ' || c = '\t' || c = '\n' || c = '\x0d' || c = '\x0b' || c = '\x0c'

/-- Python `str.strip()` (ASCII whitespace). -/
def pyStrip (s : String) : String :=
  String.mk (((s.data.dropWhile pyWhitespace).reverse.dropWhile pyWhitespace).reverse)

/-- A parsed `pathlib.Path`: an absolute flag plus the components.  `pathlib`
drops empty components and single dots at construction and keeps `..`. -/
structure PyPath where
  absolute : Bool
  parts : List String
deriving DecidableEq

/-- Splitting a character list at `/` separators. -/
def splitSlashGo : List Char → List Char → List (List Char)
  | [], acc => [acc.reverse]
  | c :: rest, acc =>
    if c = '/' then acc.reverse :: splitSlashGo rest [] else splitSlashGo rest (c :: acc)

/-- Model of `pathlib.Path(s)` on POSIX: absolute iff the string starts with `/`;
components are the nonempty, non-`.` chunks between slashes. -/
def parsePath (s : String) : PyPath :=
  { absolute := match s.data with | '/' :: _ => true | _ => false
    parts := ((splitSlashGo s.data []).map String.mk).filter (fun c => c ≠ "" && c ≠ ".") }

/-- Model of `Path.expanduser`: a leading `~` component becomes the current user's home
directory, a leading `~user` component becomes that user's home directory (the
lookup is modelled by the total oracle `userHome`); the result is absolute.
Any other path is returned unchanged. -/
def expanduser (home : List String) (userHome : String → List String) (p : PyPath) : PyPath :=
  if p.absolute then p
  else
    match p.parts with
    | [] => p
    | h :: t =>
      if h = "~" then ⟨true, home ++ t⟩
      else if h.data.head? = some '~' then ⟨true, userHome h ++ t⟩
      else p

/-- Lexical `Path.resolve` on an absolute component list (no symlinks): empty
and dot components vanish, `..` removes the previous component and is a no-op
at the root. -/
def resolveComponents (parts : List String) : List String :=
  parts.foldl
    (fun acc c =>
      if c = "." || c = "" then acc
      else if c = ".." then acc.dropLast
      else acc ++ [c])
    []

/-- Model of `Path.parents` of an absolute component list: all proper ancestor paths. -/
def parents (p : List String) : List (List String) :=
  (List.range p.length).map (fun k => p.take k)

/-- The environment a path-touching operation runs in: the trusted root
(`PROJECT_ROOT`, an absolute, normalised component list), the current home
directory, the per-user home oracle, and the filesystem existence predicate. -/
structure Env where
  root : List String
  home : List String
  userHome : String → List String
  fsExists : List String → Bool

inductive SanitizeError
  | outOfBounds
  | notFound
deriving DecidableEq

/-- The absolute path that `sanitize_path` resolves a candidate string to:
`Path(path).expanduser()`, then `(PROJECT_ROOT / candidate).resolve()` for a
relative candidate and `candidate.resolve()` for an absolute one. -/
def resolvedOf (env : Env) (s : String) : List String :=
  let candidate := expanduser env.home env.userHome (parsePath s)
  if candidate.absolute then resolveComponents candidate.parts
  else resolveComponents (env.root ++ candidate.parts)

/-- Model of `sanitize_path` (src/webapp/app.py:168-175): resolve the candidate, raise
`ValueError` (modelled `outOfBounds`) when the resolved path is neither below
nor equal to `PROJECT_ROOT`, raise `FileNotFoundError` (modelled `notFound`)
when it does not exist, and return it otherwise. -/
def sanitize_path (env : Env) (s : String) : Except SanitizeError (List String) :=
  let resolved := resolvedOf env s
  if ¬ (env.root ∈ parents resolved) ∧ resolved ≠ env.root then .error .outOfBounds
  else if env.fsExists resolved = false then .error .notFound
  else .ok resolved

deriving instance DecidableEq for Except

lemma take_of_append (a b : List String) : (a ++ b).take a.length = a := by
  simp [List.take_left]

/-- The code's containment test (`PROJECT_ROOT in resolved.parents or resolved
== PROJECT_ROOT`) says exactly that `root` is a prefix of the component list. -/
lemma bounds_iff (root r : List String) :
    (root ∈ parents r ∨ r = root) ↔ ∃ t, root ++ t = r := by
  constructor
  · rintro (hmem | rfl)
    · rcases List.mem_map.mp hmem with ⟨k, _, hk⟩
      exact ⟨r.drop k, by rw [← hk]; exact List.take_append_drop k r⟩
    · exact ⟨[], by simp⟩
  · rintro ⟨t, rfl⟩
    cases t with
    | nil => right; simp
    | cons x xs =>
      left
      refine List.mem_map.mpr ⟨root.length, ?_, take_of_append root (x :: xs)⟩
      refine List.mem_range.mpr ?_
      simp

/-- C1 counterexample.  The claim asserts that every relative candidate is
resolved relative to the trusted root.  The candidate `~/x.png` is relative
(`Path("~/x.png").is_absolute()` is false), yet `sanitize_path` first expands
the leading `~` to the home directory, so it is resolved to
`/home/u/x.png` — not to `root ++ ["~", "x.png"]` — and rejected as out of
bounds even though the root-relative interpretation exists inside the root. -/
theorem c1_counterexample :
    (parsePath "~/x.png").absolute = false ∧
    resolvedOf ⟨["proj"], ["home", "u"], fun _ => ["home", "u"],
        fun p => p == ["proj", "~", "x.png"]⟩ "~/x.png" ≠
      resolveComponents (["proj"] ++ (parsePath "~/x.png").parts) ∧
    sanitize_path ⟨["proj"], ["home", "u"], fun _ => ["home", "u"],
        fun p => p == ["proj", "~", "x.png"]⟩ "~/x.png" = .error .outOfBounds ∧
    (fun p => p == ["proj", "~", "x.png"])
      (resolveComponents (["proj"] ++ (parsePath "~/x.png").parts)) = true := by
  refine ⟨by decide, by decide, by decide, by decide⟩

/-- C1 (amended).  For every candidate string: resolution to a path that is
neither below nor equal to the trusted root fails with `outOfBounds`
regardless of the filesystem; resolution to an in-root path that does not
exist fails with `notFound`; an existing in-root resolution succeeds; and a
relative candidate whose first component does not begin with a tilde is
resolved relative to the trusted root (a leading `~`/`~user` component is
first expanded to a home directory, making the candidate absolute). -/
theorem c1_theorem (env : Env) (s : String) :
    ((¬ ∃ t, env.root ++ t = resolvedOf env s) →
      sanitize_path env s = .error .outOfBounds) ∧
    ((∃ t, env.root ++ t = resolvedOf env s) →
      env.fsExists (resolvedOf env s) = false →
      sanitize_path env s = .error .notFound) ∧
    ((∃ t, env.root ++ t = resolvedOf env s) →
      env.fsExists (resolvedOf env s) = true →
      sanitize_path env s = .ok (resolvedOf env s)) ∧
    ((parsePath s).absolute = false →
      (∀ h, (parsePath s).parts.head? = some h → h.data.head? ≠ some '~') →
      resolvedOf env s = resolveComponents (env.root ++ (parsePath s).parts)) := by
  refine ⟨?_, ?_, ?_, ?_⟩
  · intro hout
    have hb : ¬ (env.root ∈ parents (resolvedOf env s) ∨ resolvedOf env s = env.root) := by
      intro h; exact hout ((bounds_iff env.root (resolvedOf env s)).mp h)
    unfold sanitize_path
    rw [if_pos]
    push_neg at hb
    exact ⟨hb.1, hb.2⟩
  · intro hin hex
    have hb : env.root ∈ parents (resolvedOf env s) ∨ resolvedOf env s = env.root :=
      (bounds_iff env.root (resolvedOf env s)).mpr hin
    unfold sanitize_path
    rw [if_neg, if_pos hex]
    rintro ⟨h1, h2⟩
    rcases hb with hb | hb
    · exact h1 hb
    · exact h2 hb
  · intro hin hex
    have hb : env.root ∈ parents (resolvedOf env s) ∨ resolvedOf env s = env.root :=
      (bounds_iff env.root (resolvedOf env s)).mpr hin
    unfold sanitize_path
    rw [if_neg, if_neg (by simp [hex])]
    rintro ⟨h1, h2⟩
    rcases hb with hb | hb
    · exact h1 hb
    · exact h2 hb
  · intro habs hnt
    unfold resolvedOf
    cases hp : (parsePath s).parts with
    | nil =>
      simp [expanduser, habs, hp]
    | cons h t =>
      have hne : h.data.head? ≠ some '~' := hnt h (by rw [hp]; rfl)
      have hne2 : h ≠ "~" := by
        intro he; exact hne (by rw [he]; rfl)
      simp [expanduser, habs, hp, hne2, if_neg hne]

/-- C1 witness: a concrete environment exercising clauses of `c1_theorem`.
`/etc/passwd` is rejected as out of bounds even though it exists, and the
in-root `missing.csv` is rejected as not found. -/
theorem c1_witness :
    sanitize_path ⟨["proj"], ["home", "u"], fun _ => ["home", "u"],
        fun p => p == ["etc", "passwd"]⟩ "/etc/passwd" = .error .outOfBounds ∧
    sanitize_path ⟨["proj"], ["home", "u"], fun _ => ["home", "u"],
        fun p => p == ["etc", "passwd"]⟩ "missing.csv" = .error .notFound := by
  constructor
  · exact ( c1_theorem ⟨["proj"], ["home", "u"], fun _ => ["home", "u"],
      fun p => p == ["etc", "passwd"]⟩ "/etc/passwd").1
      (by rintro ⟨t, ht⟩
          rw [show resolvedOf ⟨["proj"], ["home", "u"], fun _ => ["home", "u"],
              fun p => p == ["etc", "passwd"]⟩ "/etc/passwd" = ["etc", "passwd"]
            from by decide] at ht
          have h1 : ((["proj"] : List String) ++ t).head? = some "proj" := rfl
          rw [ht] at h1
          exact absurd h1 (by decide))
  · exact (( c1_theorem ⟨["proj"], ["home", "u"], fun _ => ["home", "u"],
      fun p => p == ["etc", "passwd"]⟩ "missing.csv").2.1)
      ⟨["missing.csv"], by decide⟩ (by decide)

/-! Part: Output Scanner: the `FILE_PATTERN` regex and `parse_generated_files` -/

/-- The character class `[^\s"']` of `FILE_PATTERN`. -/
def tokenChar (c : Char) : Bool := !(pyWhitespace c) && c ≠ '"' && c ≠ '\''

/-- The extension alternation of `FILE_PATTERN`, in source order. -/
def EXTS : List String :=
  ["png", "jpg", "jpeg", "svg", "csv", "txt", "tsv", "json", "parquet"]

/-- Case-insensitive pattern match at the head of a character list (the
pattern is lowercase; `re.IGNORECASE` folds the subject). -/
def ciStarts : List Char → List Char → Bool
  | [], _ => true
  | _ :: _, [] => false
  | p :: ps, c :: cs => lowerChar c = p && ciStarts ps cs

/-- Length of the extension matched by the alternation at the head of `cs`,
trying the alternatives in source order. -/
def extLenAtGo (cs : List Char) : List String → Option Nat
  | [] => none
  | e :: es => if ciStarts e.data cs = true then some e.data.length else extLenAtGo cs es

def extLenAt (cs : List Char) : Option Nat := extLenAtGo cs EXTS

/-- Length matched by `\.(?:png|...)` at the head of `cs`. -/
def dotExt : List Char → Option Nat
  | [] => none
  | c :: rest => if c = '.' then (extLenAt rest).map (fun k => k + 1) else none

/-- Greedy backtracking over the `[^\s"']+` quantifier: try the plus-length
`ℓ` downwards from the maximal character-class run, and return the total
match length `ℓ + (dot-and-extension length)` for the first `ℓ` at which
`\.(?:…)` matches. -/
def tryLen (cs : List Char) : Nat → Option Nat
  | 0 => none
  | n + 1 =>
    match dotExt (cs.drop (n + 1)) with
    | some k => some (n + 1 + k)
    | none => tryLen cs n

/-- Length of the `FILE_PATTERN` match starting exactly at the head of `cs`,
if any (Python `re` semantics: greedy `+`, then the literal dot and the
alternation). -/
def matchLen (cs : List Char) : Option Nat :=
  tryLen cs (cs.takeWhile tokenChar).length

/-- The `re.findall` scan: at each position try a match; on success emit the
matched text and resume after it, otherwise advance one character.  `fuel`
bounds the recursion and is in practice the length of the input. -/
def scanAux : Nat → List Char → List (List Char)
  | 0, _ => []
  | _ + 1, [] => []
  | fuel + 1, c :: rest =>
    match matchLen (c :: rest) with
    | some n => (c :: rest).take n :: scanAux fuel ((c :: rest).drop n)
    | none => scanAux fuel rest

/-- Model of `FILE_PATTERN.findall(s)` (src/webapp/app.py:30). -/
def findall (s : String) : List String :=
  (scanAux s.data.length s.data).map String.mk

def IMAGE_EXTENSIONS : List String := [".png", ".jpg", ".jpeg", ".svg"]

def DATA_EXTENSIONS : List String := [".csv", ".txt", ".tsv", ".json", ".parquet"]

/-- Index of the last `.` in a character list, if any. -/
def lastDotIdxGo : List Char → Nat → Option Nat → Option Nat
  | [], _, acc => acc
  | c :: rest, i, acc => lastDotIdxGo rest (i + 1) (if c = '.' then some i else acc)

def lastDotIdx (cs : List Char) : Option Nat := lastDotIdxGo cs 0 none

/-- Model of `pathlib`'s `suffix` of a file name: the part from the last dot, provided
that dot is neither the first nor the last character (so a bare hidden-file
name like `.png` has no suffix). -/
def nameSuffix (name : String) : String :=
  match lastDotIdx name.data with
  | some i =>
    if 0 < i ∧ i + 1 < name.data.length then String.mk (name.data.drop i) else ""
  | none => ""

/-- Model of `resolved.suffix`: the suffix of the final component of an absolute path. -/
def suffixOf (p : List String) : String :=
  match p.getLast? with
  | some name => nameSuffix name
  | none => ""

/-- Model of `str(path)` for an absolute component list. -/
def pathToString (p : List String) : String :=
  if p = [] then "/" else p.foldl (fun acc c => acc ++ "/" ++ c) ""

/-- The classification loop of `parse_generated_files`
(src/webapp/app.py:183-192): resolve each candidate through the sanitizer,
silently skipping failures; the first surviving image-suffixed path fills the
single chart slot, surviving data-suffixed paths are appended in order. -/
def processLoop (env : Env) :
    List String → Option (List String) → List (List String) →
      Option (List String) × List (List String)
  | [], chart, data => (chart, data)
  | c :: rest, chart, data =>
    match sanitize_path env c with
    | .error _ => processLoop env rest chart data
    | .ok resolved =>
      if lowerStr (suffixOf resolved) ∈ IMAGE_EXTENSIONS ∧ chart = none then
        processLoop env rest (some resolved) data
      else if lowerStr (suffixOf resolved) ∈ DATA_EXTENSIONS then
        processLoop env rest chart (data ++ [resolved])
      else processLoop env rest chart data

/-- Model of `set(FILE_PATTERN.findall(stdout)) | set(FILE_PATTERN.findall(stderr))`:
the pooled, deduplicated candidate tokens of both streams (Python's set
iteration order is unspecified; this model fixes one enumeration, and the
claims proved about the loop hold for every enumeration). -/
def candidateSet (stdout stderr : String) : List String :=
  (findall stdout ++ findall stderr).dedup

structure JobResult where
  chart_path : Option (List String)
  data_files : List (List String)
  stdout : String
  stderr : String
deriving DecidableEq

/-- Model of `parse_generated_files` (src/webapp/app.py:178-194). -/
def parse_generated_files (env : Env) (stdout stderr : String) : JobResult :=
  let r := processLoop env (candidateSet stdout stderr) none []
  ⟨r.1, r.2, stdout, stderr⟩

/-- Whether a sanitizer result is a success. -/
def sanOk : Except SanitizeError (List String) → Bool
  | .ok _ => true
  | .error _ => false

lemma processLoop_cons_err (env : Env) (c : String) (rest : List String)
    (chart : Option (List String)) (data : List (List String)) (e : SanitizeError)
    (h : sanitize_path env c = .error e) :
    processLoop env (c :: rest) chart data = processLoop env rest chart data := by
  simp only [processLoop, h]

lemma processLoop_cons_img (env : Env) (c : String) (rest : List String)
    (data : List (List String)) (r : List String)
    (h : sanitize_path env c = .ok r) (him : lowerStr (suffixOf r) ∈ IMAGE_EXTENSIONS) :
    processLoop env (c :: rest) none data = processLoop env rest (some r) data := by
  simp [processLoop, h, him]

lemma processLoop_cons_data (env : Env) (c : String) (rest : List String)
    (chart : Option (List String)) (data : List (List String)) (r : List String)
    (h : sanitize_path env c = .ok r)
    (hnot : ¬(lowerStr (suffixOf r) ∈ IMAGE_EXTENSIONS ∧ chart = none))
    (hdat : lowerStr (suffixOf r) ∈ DATA_EXTENSIONS) :
    processLoop env (c :: rest) chart data = processLoop env rest chart (data ++ [r]) := by
  simp only [processLoop, h]
  rw [if_neg hnot, if_pos hdat]

lemma processLoop_cons_skip (env : Env) (c : String) (rest : List String)
    (chart : Option (List String)) (data : List (List String)) (r : List String)
    (h : sanitize_path env c = .ok r)
    (hnot : ¬(lowerStr (suffixOf r) ∈ IMAGE_EXTENSIONS ∧ chart = none))
    (hnd : lowerStr (suffixOf r) ∉ DATA_EXTENSIONS) :
    processLoop env (c :: rest) chart data = processLoop env rest chart data := by
  simp only [processLoop, h]
  rw [if_neg hnot, if_neg hnd]

/-- Case analysis on one step of the classification loop. -/
lemma processLoop_cons_cases (env : Env) (c : String) (rest : List String)
    (chart : Option (List String)) (data : List (List String)) :
    processLoop env (c :: rest) chart data = processLoop env rest chart data ∨
    (∃ r, sanitize_path env c = .ok r ∧ chart = none ∧
      lowerStr (suffixOf r) ∈ IMAGE_EXTENSIONS ∧
      processLoop env (c :: rest) chart data = processLoop env rest (some r) data) ∨
    (∃ r, sanitize_path env c = .ok r ∧ lowerStr (suffixOf r) ∈ DATA_EXTENSIONS ∧
      processLoop env (c :: rest) chart data = processLoop env rest chart (data ++ [r])) := by
  cases hs : sanitize_path env c with
  | error e => exact Or.inl (processLoop_cons_err env c rest chart data e hs)
  | ok r =>
    by_cases hcnd : lowerStr (suffixOf r) ∈ IMAGE_EXTENSIONS ∧ chart = none
    · refine Or.inr (Or.inl ⟨r, rfl, hcnd.2, hcnd.1, ?_⟩)
      rw [hcnd.2]
      exact processLoop_cons_img env c rest data r hs hcnd.1
    · by_cases hdat : lowerStr (suffixOf r) ∈ DATA_EXTENSIONS
      · exact Or.inr (Or.inr ⟨r, rfl, hdat, processLoop_cons_data env c rest chart data r hs hcnd hdat⟩)
      · exact Or.inl (processLoop_cons_skip env c rest chart data r hs hcnd hdat)

lemma processLoop_filter_ok (env : Env) :
    ∀ (cs : List String) (chart : Option (List String)) (data : List (List String)),
      processLoop env (cs.filter (fun c => sanOk (sanitize_path env c))) chart data =
        processLoop env cs chart data := by
  intro cs
  induction cs with
  | nil => intro chart data; rfl
  | cons c rest ih =>
    intro chart data
    cases hs : sanitize_path env c with
    | error e =>
      have hf : List.filter (fun c => sanOk (sanitize_path env c)) (c :: rest) =
          List.filter (fun c => sanOk (sanitize_path env c)) rest := by
        simp [List.filter_cons, hs, sanOk]
      rw [hf, ih, processLoop_cons_err env c rest chart data e hs]
    | ok r =>
      have hf : List.filter (fun c => sanOk (sanitize_path env c)) (c :: rest) =
          c :: List.filter (fun c => sanOk (sanitize_path env c)) rest := by
        simp [List.filter_cons, hs, sanOk]
      rw [hf]
      by_cases hcnd : lowerStr (suffixOf r) ∈ IMAGE_EXTENSIONS ∧ chart = none
      · rw [hcnd.2, processLoop_cons_img env c _ data r hs hcnd.1,
          processLoop_cons_img env c rest data r hs hcnd.1, ih]
      · by_cases hdat : lowerStr (suffixOf r) ∈ DATA_EXTENSIONS
        · rw [processLoop_cons_data env c _ chart data r hs hcnd hdat,
            processLoop_cons_data env c rest chart data r hs hcnd hdat, ih]
        · rw [processLoop_cons_skip env c _ chart data r hs hcnd hdat,
            processLoop_cons_skip env c rest chart data r hs hcnd hdat, ih]

lemma processLoop_data_mono (env : Env) :
    ∀ (cs : List String) (chart : Option (List String)) (data : List (List String))
      (x : List String), x ∈ data → x ∈ (processLoop env cs chart data).2 := by
  intro cs
  induction cs with
  | nil => intro chart data x hx; exact hx
  | cons c rest ih =>
    intro chart data x hx
    rcases processLoop_cons_cases env c rest chart data with heq | ⟨r, _, _, _, heq⟩ |
        ⟨r, _, _, heq⟩ <;> rw [heq]
    · exact ih _ _ _ hx
    · exact ih _ _ _ hx
    · exact ih _ _ _ (List.mem_append_left _ hx)

lemma image_data_disjoint :
    ∀ s ∈ DATA_EXTENSIONS, s ∉ IMAGE_EXTENSIONS := by decide

lemma processLoop_data_mem (env : Env) :
    ∀ (cs : List String) (chart : Option (List String)) (data : List (List String))
      (c : String) (r : List String), c ∈ cs → sanitize_path env c = .ok r →
      lowerStr (suffixOf r) ∈ DATA_EXTENSIONS → r ∈ (processLoop env cs chart data).2 := by
  intro cs
  induction cs with
  | nil => intro _ _ _ _ hc; cases hc
  | cons c0 rest ih =>
    intro chart data c r hc hok hdat
    rcases List.mem_cons.mp hc with rfl | hmem
    · rw [show processLoop env (c :: rest) chart data =
          processLoop env rest chart (data ++ [r]) from ?_]
      · exact processLoop_data_mono env rest chart (data ++ [r]) r
          (List.mem_append_right _ (List.mem_singleton.mpr rfl))
      · simp only [processLoop, hok]
        rw [if_neg, if_pos hdat]
        rintro ⟨him, -⟩
        exact image_data_disjoint _ hdat him
    · rcases processLoop_cons_cases env c0 rest chart data with heq | ⟨r0, _, _, _, heq⟩ |
          ⟨r0, _, _, heq⟩ <;> rw [heq]
      · exact ih _ _ _ _ hmem hok hdat
      · exact ih _ _ _ _ hmem hok hdat
      · exact ih _ _ _ _ hmem hok hdat

lemma processLoop_data_suffix (env : Env) :
    ∀ (cs : List String) (chart : Option (List String)) (data : List (List String))
      (r : List String), r ∈ (processLoop env cs chart data).2 →
      r ∈ data ∨ lowerStr (suffixOf r) ∈ DATA_EXTENSIONS := by
  intro cs
  induction cs with
  | nil => intro chart data r hr; exact Or.inl hr
  | cons c rest ih =>
    intro chart data r hr
    rcases processLoop_cons_cases env c rest chart data with heq | ⟨r0, _, _, _, heq⟩ |
        ⟨r0, _, hdat0, heq⟩
    · rw [heq] at hr
      exact ih _ _ _ hr
    · rw [heq] at hr
      exact ih _ _ _ hr
    · rw [heq] at hr
      rcases ih _ _ _ hr with hin | hsf
      · rcases List.mem_append.mp hin with hin | hin
        · exact Or.inl hin
        · rw [List.mem_singleton.mp hin]
          exact Or.inr hdat0
      · exact Or.inr hsf

lemma processLoop_chart_stable (env : Env) :
    ∀ (cs : List String) (p : List String) (data : List (List String)),
      (processLoop env cs (some p) data).1 = some p := by
  intro cs
  induction cs with
  | nil => intro p data; rfl
  | cons c rest ih =>
    intro p data
    rcases processLoop_cons_cases env c rest (some p) data with heq | ⟨r, _, hch, _, heq⟩ |
        ⟨r, _, _, heq⟩
    · rw [heq]; exact ih _ _
    · cases hch
    · rw [heq]; exact ih _ _

lemma processLoop_chart_sound (env : Env) :
    ∀ (cs : List String) (chart : Option (List String)) (data : List (List String))
      (p : List String), (processLoop env cs chart data).1 = some p →
      chart = some p ∨
        ∃ c ∈ cs, sanitize_path env c = .ok p ∧ lowerStr (suffixOf p) ∈ IMAGE_EXTENSIONS := by
  intro cs
  induction cs with
  | nil => intro chart data p hp; exact Or.inl hp
  | cons c rest ih =>
    intro chart data p hp
    rcases processLoop_cons_cases env c rest chart data with heq | ⟨r, hok, hch, him, heq⟩ |
        ⟨r, _, _, heq⟩
    · rw [heq] at hp
      rcases ih _ _ _ hp with h | ⟨c1, hc1, h1, h2⟩
      · exact Or.inl h
      · exact Or.inr ⟨c1, List.mem_cons_of_mem _ hc1, h1, h2⟩
    · rw [heq] at hp
      rcases ih _ _ _ hp with h | ⟨c1, hc1, h1, h2⟩
      · cases h
        exact Or.inr ⟨c, List.mem_cons_self c rest, hok, him⟩
      · exact Or.inr ⟨c1, List.mem_cons_of_mem _ hc1, h1, h2⟩
    · rw [heq] at hp
      rcases ih _ _ _ hp with h | ⟨c1, hc1, h1, h2⟩
      · exact Or.inl h
      · exact Or.inr ⟨c1, List.mem_cons_of_mem _ hc1, h1, h2⟩

/-- C7 (confirmed).  The Output Scanner pools the path-like tokens of both
streams into a deduplicated collection (membership is exactly "token of
either stream", and the pooled list has no duplicates); dropping the
candidates whose sanitizer resolution fails does not change the result of the
classification loop (they are silently discarded, and the loop is a total
function, so the scan never aborts); every surviving candidate whose resolved
path has a data extension ends up in `data_files`; and the single retained
chart, when present, is a surviving image-extension candidate. -/
theorem c7_theorem (env : Env) (s1 s2 : String) :
    (∀ c, c ∈ candidateSet s1 s2 ↔ (c ∈ findall s1 ∨ c ∈ findall s2)) ∧
    (candidateSet s1 s2).Nodup ∧
    (∀ (cs : List String) (chart : Option (List String)) (data : List (List String)),
      processLoop env (cs.filter (fun c => sanOk (sanitize_path env c))) chart data =
        processLoop env cs chart data) ∧
    (∀ (c : String) (r : List String), c ∈ candidateSet s1 s2 →
      sanitize_path env c = .ok r → lowerStr (suffixOf r) ∈ DATA_EXTENSIONS →
      r ∈ (parse_generated_files env s1 s2).data_files) ∧
    (∀ p, (parse_generated_files env s1 s2).chart_path = some p →
      ∃ c ∈ candidateSet s1 s2,
        sanitize_path env c = .ok p ∧ lowerStr (suffixOf p) ∈ IMAGE_EXTENSIONS) := by
  refine ⟨?_, ?_, ?_, ?_, ?_⟩
  · intro c
    simp [candidateSet]
  · exact List.nodup_dedup _
  · exact processLoop_filter_ok env
  · intro c r hc hok hdat
    exact processLoop_data_mem env (candidateSet s1 s2) none [] c r hc hok hdat
  · intro p hp
    rcases processLoop_chart_sound env (candidateSet s1 s2) none [] p hp with h | hex
    · cases h
    · exact hex

/-- C7 witness: a stdout naming an existing in-root data file yields that file
in `data_files`. -/
theorem c7_witness :
    ["proj", "d.csv"] ∈ (parse_generated_files
      ⟨["proj"], ["h"], fun _ => ["h"], fun p => p == ["proj", "d.csv"]⟩
      "wrote d.csv" "").data_files :=
  ( c7_theorem ⟨["proj"], ["h"], fun _ => ["h"], fun p => p == ["proj", "d.csv"]⟩
    "wrote d.csv" "").2.2.2.1 "d.csv" ["proj", "d.csv"]
    (by decide) (by decide) (by decide)

/-- C9 (confirmed).  Every path in the scanner's `data_files` has a
data-category extension and never an image-category one (so an image path
never appears in `data_files`), and once the single chart slot is filled the
loop never replaces it — later image candidates are dropped entirely. -/
theorem c9_theorem (env : Env) (s1 s2 : String) :
    (∀ r, r ∈ (parse_generated_files env s1 s2).data_files →
      lowerStr (suffixOf r) ∈ DATA_EXTENSIONS ∧ lowerStr (suffixOf r) ∉ IMAGE_EXTENSIONS) ∧
    (∀ (cs : List String) (p : List String) (data : List (List String)),
      (processLoop env cs (some p) data).1 = some p) := by
  constructor
  · intro r hr
    rcases processLoop_data_suffix env (candidateSet s1 s2) none [] r hr with h | h
    · cases h
    · exact ⟨h, image_data_disjoint _ h⟩
  · exact processLoop_chart_stable env

/-- C9 witness: with both an image and a data file present in the output, the
retained data file is classified as data-category and not image-category. -/
theorem c9_witness :
    lowerStr (suffixOf ["proj", "c.csv"]) ∈ DATA_EXTENSIONS ∧
    lowerStr (suffixOf ["proj", "c.csv"]) ∉ IMAGE_EXTENSIONS :=
  ( c9_theorem ⟨["proj"], ["h"], fun _ => ["h"],
      fun p => p == ["proj", "c.csv"] || p == ["proj", "a.png"]⟩
    "a.png c.csv" "").1 ["proj", "c.csv"] (by decide)

/-! Part: Case-insensitivity of extension recognition and classification (C10) -/

lemma tokenChar_lowerChar (c : Char) : tokenChar (lowerChar c) = tokenChar c := by
  rcases lowerChar_spec c with h | ⟨p, hp, h1, h2⟩
  · rw [h]
  · rw [h2, ← h1]
    exact (show ∀ q ∈ lowerTable, tokenChar q.2 = tokenChar q.1 from by decide) p hp

lemma lowerChar_dot (c : Char) : lowerChar c = '.' ↔ c = '.' := by
  rcases lowerChar_spec c with h | ⟨p, hp, h1, h2⟩
  · rw [h]
  · rw [h2, ← h1]
    exact (show ∀ q ∈ lowerTable, (q.2 = '.' ↔ q.1 = '.') from by decide) p hp

lemma ciStarts_self_map : ∀ cs : List Char, ciStarts (cs.map lowerChar) cs = true := by
  intro cs
  induction cs with
  | nil => rfl
  | cons c rest ih => simp [ciStarts, ih]

lemma ciStarts_take : ∀ (pat cs : List Char), ciStarts pat cs = true →
    (cs.take pat.length).map lowerChar = pat := by
  intro pat
  induction pat with
  | nil => intro cs _; rfl
  | cons p ps ih =>
    intro cs h
    cases cs with
    | nil => cases h
    | cons c rest =>
      rcases Bool.and_eq_true_iff.mp h with ⟨h1, h2⟩
      simp only [List.length_cons, List.take_succ_cons, List.map_cons]
      rw [ih rest h2, show lowerChar c = p from by simpa using h1]

lemma exts_no_overlap :
    ∀ e1 ∈ EXTS, ∀ e2 ∈ EXTS, e2.data = e1.data.take e2.data.length → e2 = e1 := by decide

lemma extLenAtGo_of_variant (cs : List Char) (ext : String) :
    ∀ l : List String, ext ∈ l → (∀ e2 ∈ l, ciStarts e2.data cs = true → e2 = ext) →
      ciStarts ext.data cs = true → extLenAtGo cs l = some ext.data.length := by
  intro l
  induction l with
  | nil => intro h; cases h
  | cons e es ih =>
    intro hmem huniq hci
    by_cases he : ciStarts e.data cs = true
    · have : e = ext := huniq e (List.mem_cons_self e es) he
      subst this
      simp [extLenAtGo, he]
    · have hne : e ≠ ext := by
        intro h; rw [h] at he; exact he hci
      have hmem2 : ext ∈ es := by
        rcases List.mem_cons.mp hmem with h | h
        · exact absurd h.symm hne
        · exact h
      show (if ciStarts e.data cs = true then some e.data.length else extLenAtGo cs es) =
        some ext.data.length
      rw [if_neg he]
      exact ih hmem2 (fun e2 h2 hc => huniq e2 (List.mem_cons_of_mem _ h2) hc) hci

lemma extLenAt_of_variant (cs : List Char) (ext : String) (hext : ext ∈ EXTS)
    (hvar : cs.map lowerChar = ext.data) : extLenAt cs = some ext.data.length := by
  have hci : ciStarts ext.data cs = true := by
    rw [← hvar]; exact ciStarts_self_map cs
  refine extLenAtGo_of_variant cs ext EXTS hext ?_ hci
  intro e2 h2 hc
  have ht := ciStarts_take e2.data cs hc
  rw [List.map_take, hvar] at ht
  exact exts_no_overlap ext hext e2 h2 ht.symm

lemma dotExt_not_dot (c : Char) (rest : List Char) (h : ¬ c = '.') :
    dotExt (c :: rest) = none := by
  simp [dotExt, h]

lemma tryLen_descend (cs : List Char) :
    ∀ (m a : Nat), (∀ j, a < j → j ≤ a + m → dotExt (cs.drop j) = none) →
      tryLen cs (a + m) = tryLen cs a := by
  intro m
  induction m with
  | zero => intro a _; rfl
  | succ m ih =>
    intro a hnone
    have h1 : dotExt (cs.drop (a + m + 1)) = none :=
      hnone (a + m + 1) (by omega) (by omega)
    have : a + (m + 1) = (a + m) + 1 := by omega
    rw [this]
    show tryLen cs ((a + m) + 1) = tryLen cs a
    rw [show tryLen cs ((a + m) + 1) = tryLen cs (a + m) from by
      simp only [tryLen, h1]]
    exact ih a (fun j hj1 hj2 => hnone j hj1 (by omega))

lemma exts_chars :
    ∀ e ∈ EXTS, 3 ≤ e.data.length ∧ ∀ d ∈ e.data, tokenChar d = true ∧ d ≠ '.' := by
  decide

lemma scanAux_nil : ∀ fuel, scanAux fuel [] = [] := by
  intro fuel
  cases fuel <;> rfl

lemma takeWhile_all {p : Char → Bool} :
    ∀ l : List Char, (∀ c ∈ l, p c = true) → l.takeWhile p = l := by
  intro l
  induction l with
  | nil => intro _; rfl
  | cons c rest ih =>
    intro h
    rw [List.takeWhile_cons, if_pos (h c (List.mem_cons_self c rest)), ih]
    intro d hd
    exact h d (List.mem_cons_of_mem _ hd)

/-- A token consisting of character-class characters followed by a dot and a
case variant of a recognised extension is matched whole, in one piece. -/
lemma findall_token (stem e' : List Char) (ext : String) (hext : ext ∈ EXTS)
    (hvar : e'.map lowerChar = ext.data) (hne : stem ≠ [])
    (htc : ∀ c ∈ stem, tokenChar c = true) :
    findall (String.mk (stem ++ '.' :: e')) = [String.mk (stem ++ '.' :: e')] := by
  have hextlen : e'.length = ext.data.length := by
    rw [← hvar, List.length_map]
  have hechars : ∀ c ∈ e', tokenChar c = true ∧ c ≠ '.' := by
    intro c hc
    have hmm : lowerChar c ∈ ext.data := hvar ▸ List.mem_map_of_mem lowerChar hc
    have hd := (exts_chars ext hext).2 (lowerChar c) hmm
    constructor
    · rw [← tokenChar_lowerChar]; exact hd.1
    · intro h
      exact hd.2 (by rw [h]; exact (lowerChar_dot '.').mpr rfl)
  set T := stem ++ '.' :: e' with hT
  have hTall : ∀ c ∈ T, tokenChar c = true := by
    intro c hc
    rcases List.mem_append.mp hc with h | h
    · exact htc c h
    · rcases List.mem_cons.mp h with rfl | h
      · decide
      · exact (hechars c h).1
  have hTlen : T.length = stem.length + (e'.length + 1) := by
    rw [hT]
    simp only [List.length_append, List.length_cons]
  have hdropstem : T.drop stem.length = '.' :: e' := List.drop_left stem ('.' :: e')
  have hdotstem : dotExt (T.drop stem.length) = some (e'.length + 1) := by
    rw [hdropstem]
    simp [dotExt, extLenAt_of_variant e' ext hext hvar, hextlen]
  have hnone : ∀ j, stem.length < j → j ≤ stem.length + (e'.length + 1) →
      dotExt (T.drop j) = none := by
    intro j hj1 hj2
    have hdj : T.drop j = e'.drop (j - stem.length - 1) := by
      have hjeq : j = (stem ++ ['.']).length + (j - stem.length - 1) := by
        simp only [List.length_append, List.length_cons, List.length_nil]
        omega
      nth_rewrite 1 [hjeq]
      rw [show T = (stem ++ ['.']) ++ e' from by simp [hT], ← List.drop_drop,
        List.drop_left]
    rw [hdj]
    rcases Nat.lt_or_ge (j - stem.length - 1) e'.length with hlt | hge
    · have hnn : e'.drop (j - stem.length - 1) ≠ [] := by
        intro hnil
        have := congrArg List.length hnil
        simp at this
        omega
      rcases List.exists_cons_of_ne_nil hnn with ⟨c, cs, hc⟩
      rw [hc]
      refine dotExt_not_dot c cs ?_
      have hcm : c ∈ e' := by
        have : c ∈ e'.drop (j - stem.length - 1) := by rw [hc]; exact List.mem_cons_self c cs
        exact List.mem_of_mem_drop this
      exact (hechars c hcm).2
    · rw [List.drop_eq_nil_of_le (by omega)]
      rfl
  have hmatch : matchLen T = some T.length := by
    unfold matchLen
    rw [takeWhile_all T hTall, hTlen]
    rw [tryLen_descend T (e'.length + 1) stem.length hnone]
    rcases List.exists_cons_of_ne_nil hne with ⟨c0, s0, hs0⟩
    have hsl : stem.length = s0.length + 1 := by rw [hs0]; simp
    rw [hsl]
    simp only [tryLen]
    rw [show s0.length + 1 = stem.length from hsl.symm, hdotstem]
  rcases List.exists_cons_of_ne_nil hne with ⟨c0, s0, hs0⟩
  have hTcons : T = c0 :: (s0 ++ '.' :: e') := by rw [hT, hs0]; rfl
  have hfuel : T.length = (s0 ++ '.' :: e').length + 1 := by rw [hTcons]; rfl
  unfold findall
  rw [show (String.mk T).data = T from rfl, hfuel, hTcons]
  rw [show scanAux ((s0 ++ '.' :: e').length + 1) (c0 :: (s0 ++ '.' :: e')) =
      match matchLen (c0 :: (s0 ++ '.' :: e')) with
      | some n => (c0 :: (s0 ++ '.' :: e')).take n :: scanAux (s0 ++ '.' :: e').length
          ((c0 :: (s0 ++ '.' :: e')).drop n)
      | none => scanAux (s0 ++ '.' :: e').length (s0 ++ '.' :: e') from rfl]
  rw [← hTcons, hmatch]
  simp only [List.take_length, List.drop_length]
  rw [scanAux_nil]
  rfl

lemma lastDotIdxGo_map_lower :
    ∀ (cs : List Char) (i : Nat) (acc : Option Nat),
      lastDotIdxGo (cs.map lowerChar) i acc = lastDotIdxGo cs i acc := by
  intro cs
  induction cs with
  | nil => intro i acc; rfl
  | cons c rest ih =>
    intro i acc
    simp only [List.map_cons, lastDotIdxGo]
    rw [show (if lowerChar c = '.' then some i else acc) =
        (if c = '.' then some i else acc) from by
      by_cases h : c = '.'
      · rw [if_pos h, if_pos ((lowerChar_dot c).mpr h)]
      · rw [if_neg h, if_neg (fun hh => h ((lowerChar_dot c).mp hh))]]
    exact ih _ _

lemma suffix_lower_congr (n1 n2 : String)
    (h : n1.data.map lowerChar = n2.data.map lowerChar) :
    lowerStr (nameSuffix n1) = lowerStr (nameSuffix n2) := by
  have hlen : n1.data.length = n2.data.length := by
    have := congrArg List.length h
    simpa using this
  have hidx : lastDotIdx n1.data = lastDotIdx n2.data := by
    unfold lastDotIdx
    rw [← lastDotIdxGo_map_lower n1.data, h, lastDotIdxGo_map_lower]
  unfold nameSuffix
  rw [hidx, hlen]
  cases lastDotIdx n2.data with
  | none => rfl
  | some i =>
    show lowerStr (if 0 < i ∧ i + 1 < n2.data.length then String.mk (n1.data.drop i) else "") =
      lowerStr (if 0 < i ∧ i + 1 < n2.data.length then String.mk (n2.data.drop i) else "")
    by_cases hcond : 0 < i ∧ i + 1 < n2.data.length
    · rw [if_pos hcond, if_pos hcond]
      show String.mk ((n1.data.drop i).map lowerChar) =
        String.mk ((n2.data.drop i).map lowerChar)
      rw [List.map_drop, List.map_drop, h]
    · rw [if_neg hcond, if_neg hcond]

/-- C10 (confirmed).  Extension recognition is case-insensitive: a token made
of path characters followed by a dot and any case variant of a recognised
extension (e.g. `.PNG`) is extracted by `FILE_PATTERN.findall` exactly as its
lowercase form would be; and chart-versus-data classification depends only on
the lowercased suffix, so two resolved paths that agree up to character case
are classified identically. -/
theorem c10_theorem :
    (∀ (stem e' : List Char) (ext : String), ext ∈ EXTS →
      e'.map lowerChar = ext.data → stem ≠ [] → (∀ c ∈ stem, tokenChar c = true) →
      findall (String.mk (stem ++ '.' :: e')) = [String.mk (stem ++ '.' :: e')]) ∧
    (∀ p q : List String, p.map lowerStr = q.map lowerStr →
      ((lowerStr (suffixOf p) ∈ IMAGE_EXTENSIONS ↔ lowerStr (suffixOf q) ∈ IMAGE_EXTENSIONS) ∧
       (lowerStr (suffixOf p) ∈ DATA_EXTENSIONS ↔ lowerStr (suffixOf q) ∈ DATA_EXTENSIONS))) := by
  constructor
  · exact findall_token
  · intro p q h
    have hsuf : lowerStr (suffixOf p) = lowerStr (suffixOf q) := by
      unfold suffixOf
      have hlast : p.getLast?.map lowerStr = q.getLast?.map lowerStr := by
        rw [← List.getLast?_map, ← List.getLast?_map, h]
      cases hp : p.getLast? with
      | none =>
        rw [hp] at hlast
        cases hq : q.getLast? with
        | none => rfl
        | some n2 => rw [hq] at hlast; cases hlast
      | some n1 =>
        rw [hp] at hlast
        cases hq : q.getLast? with
        | none => rw [hq] at hlast; cases hlast
        | some n2 =>
          rw [hq] at hlast
          have : lowerStr n1 = lowerStr n2 := by
            simpa using hlast
          refine suffix_lower_congr n1 n2 ?_
          have := congrArg String.data this
          simpa [lowerStr] using this
    rw [hsuf]
    exact ⟨Iff.rfl, Iff.rfl⟩

/-- C10 witness: the uppercase-extension token `x.PNG` is extracted whole. -/
theorem c10_witness :
    findall (String.mk (['x'] ++ '.' :: ['P', 'N', 'G'])) =
      [String.mk (['x'] ++ '.' :: ['P', 'N', 'G'])] :=
  c10_theorem.1 ['x'] ['P', 'N', 'G'] "png" (by decide) (by decide) (by decide) (by decide)

/-! Part: Argument Resolver (`resolve_query_args`, src/webapp/app.py:280-297) -/

/-- Model of `list.index(x)`, returning `none` instead of raising `ValueError`. -/
def firstIdx : List String → String → Option Nat
  | [], _ => none
  | a :: rest, x => if a = x then some 0 else (firstIdx rest x).map (fun i => i + 1)

/-- One flag/value application of the resolver loop body: replace the token
after the flag's first occurrence when there is one (`result[idx+1] = value`),
and append `[flag, value]` otherwise. -/
def substFlag (result : List String) (flag v : String) : List String :=
  match firstIdx result flag with
  | some idx => if idx + 1 < result.length then result.set (idx + 1) v else result ++ [flag, v]
  | none => result ++ [flag, v]

/-- The caller-supplied date overrides (only the two flags `--start-date` and
`--end-date` are ever placed in the overrides dictionary). -/
structure Overrides where
  startDate : Option String
  endDate : Option String
deriving DecidableEq

/-- The per-query baseline lookup, `config.get(query.identifier, [])`. -/
def clookup : List (String × List String) → String → Option (List String)
  | [], _ => none
  | (k, v) :: rest, q => if k = q then some v else clookup rest q

/-- Model of `resolve_query_args` (src/webapp/app.py:280-297): empty or missing
overrides return the baseline; otherwise the loop applies the start-date
flag and then the end-date flag through `substFlag`. -/
def resolve_query_args (config : List (String × List String)) (qid : String)
    (overrides : Option Overrides) : List String :=
  let baseline := (clookup config qid).getD []
  match overrides with
  | none => baseline
  | some o =>
    if o.startDate = none ∧ o.endDate = none then baseline
    else
      let r1 := match o.startDate with
        | none => baseline
        | some v => substFlag baseline "--start-date" v
      match o.endDate with
      | none => r1
      | some v => substFlag r1 "--end-date" v

/-- Modelled from the spec: in-place substitution phrased as a splice — the
token immediately following the flag's first occurrence is replaced, all
other tokens pass through unchanged and in order; when no replaceable slot
exists the flag/value pair is appended at the end (in the code this also
happens when the flag is present but is the final token, leaving the bare
flag in place). -/
def substSpecWords (baseline : List String) (flag v : String) : List String :=
  match firstIdx baseline flag with
  | some idx =>
    if idx + 1 < baseline.length then
      baseline.take (idx + 1) ++ v :: baseline.drop (idx + 2)
    else baseline ++ [flag, v]
  | none => baseline ++ [flag, v]

lemma set_eq_splice : ∀ (l : List String) (n : Nat) (a : String), n < l.length →
    l.set n a = l.take n ++ a :: l.drop (n + 1) := by
  intro l
  induction l with
  | nil => intro n a h; cases h
  | cons x xs ih =>
    intro n a h
    cases n with
    | zero => rfl
    | succ m =>
      simp only [List.set_cons_succ, List.take_succ_cons, List.drop_succ_cons,
        List.cons_append]
      rw [ih m a (by simpa using h)]

lemma substFlag_eq_spec (baseline : List String) (flag v : String) :
    substFlag baseline flag v = substSpecWords baseline flag v := by
  unfold substFlag substSpecWords
  cases hf : firstIdx baseline flag with
  | none => rfl
  | some idx =>
    show (if idx + 1 < baseline.length then baseline.set (idx + 1) v
        else baseline ++ [flag, v]) =
      (if idx + 1 < baseline.length then
          baseline.take (idx + 1) ++ v :: baseline.drop (idx + 2)
        else baseline ++ [flag, v])
    by_cases hlt : idx + 1 < baseline.length
    · rw [if_pos hlt, if_pos hlt, set_eq_splice baseline (idx + 1) v hlt]
    · rw [if_neg hlt, if_neg hlt]

/-- C5 counterexample.  With baseline `["--start-date"]` (the flag present as
the final token) and a start-date override, the claim requires in-place
substitution of the token following the flag; the code instead appends the
pair, yielding a three-token list in which the flag occurs twice. -/
theorem c5_counterexample :
    "--start-date" ∈ ((clookup [("q", ["--start-date"])] "q").getD []) ∧
    resolve_query_args [("q", ["--start-date"])] "q"
        (some ⟨some "2025-02-01", none⟩) =
      ["--start-date", "--start-date", "2025-02-01"] ∧
    (resolve_query_args [("q", ["--start-date"])] "q"
        (some ⟨some "2025-02-01", none⟩)).length ≠
      ((clookup [("q", ["--start-date"])] "q").getD []).length := by
  refine ⟨by decide, by decide, by decide⟩

/-- C5 (amended).  The resolver equals the spec-style description in which
each supplied override is substituted as a splice after the flag's first
occurrence when that occurrence is followed by at least one token, and is
otherwise appended as a flag/value pair (in particular a bare trailing flag is
left in place and the pair appended after it); overrides are applied
sequentially, start date first; missing or empty overrides return the
baseline unchanged; and a query identifier absent from the configuration
yields an empty baseline rather than an error. -/
theorem c5_theorem (config : List (String × List String)) (qid : String) :
    (∀ o : Overrides, resolve_query_args config qid (some o) =
      (if o.startDate = none ∧ o.endDate = none then (clookup config qid).getD []
       else
         let r1 := match o.startDate with
           | none => (clookup config qid).getD []
           | some v => substSpecWords ((clookup config qid).getD []) "--start-date" v
         match o.endDate with
         | none => r1
         | some v => substSpecWords r1 "--end-date" v)) ∧
    resolve_query_args config qid none = (clookup config qid).getD [] ∧
    (clookup config qid = none → resolve_query_args config qid none = []) := by
  refine ⟨?_, rfl, ?_⟩
  · intro o
    obtain ⟨sd, ed⟩ := o
    cases sd <;> cases ed <;> simp [resolve_query_args, substFlag_eq_spec]
  · intro h
    simp [resolve_query_args, h]

/-- C5 witness: the spec's own example — baseline with both flags present and
a start-date override replaces only the token after `--start-date`. -/
theorem c5_witness :
    resolve_query_args
        [("q", ["--start-date", "2025-01-01", "--end-date", "2025-01-31"])] "q"
        (some ⟨some "2025-02-01", none⟩) =
      ["--start-date", "2025-02-01", "--end-date", "2025-01-31"] ∧
    clookup [("q", ["--start-date", "2025-01-01", "--end-date", "2025-01-31"])] "other" =
      none ∧
    resolve_query_args
        [("q", ["--start-date", "2025-01-01", "--end-date", "2025-01-31"])] "other"
        none = [] := by
  refine ⟨?_, by decide, ?_⟩
  · rw [(c5_theorem [("q", ["--start-date", "2025-01-01", "--end-date", "2025-01-31"])]
      "q").1 ⟨some "2025-02-01", none⟩]
    decide
  · exact (c5_theorem [("q", ["--start-date", "2025-01-01", "--end-date", "2025-01-31"])]
      "other").2.2 (by decide)

/-! Part: Date normalization (`normalize_date_input`, src/webapp/app.py:39-51)

`datetime.strptime` with the formats `%Y-%m-%d`, `%m/%d/%Y`, `%m-%d-%Y` is
modelled exactly: `%Y` matches exactly four digits, `%m` one or two digits
valued 1–12, `%d` one or two digits valued 1–31, the whole string must be
consumed, and the resulting calendar date must be constructible (month
lengths, leap years, year at least 1).  `strftime("%Y-%m-%d")` is modelled as
zero-padded rendering (C-library behaviour for years below 1000 varies by
platform and is outside the model). -/

def natOf (cs : List Char) : Nat := cs.foldl (fun acc c => acc * 10 + (c.toNat - 48)) 0

def allDigits (cs : List Char) : Bool := cs.all Char.isDigit

/-- The `%Y` field: exactly four digits. -/
def yearOk (cs : List Char) : Bool := allDigits cs && cs.length == 4

/-- The `%m` field: one or two digits valued 1..12. -/
def monthOk (cs : List Char) : Bool :=
  allDigits cs && (cs.length == 1 || cs.length == 2) && 1 ≤ natOf cs && natOf cs ≤ 12

/-- The `%d` field: one or two digits valued 1..31. -/
def dayOk (cs : List Char) : Bool :=
  allDigits cs && (cs.length == 1 || cs.length == 2) && 1 ≤ natOf cs && natOf cs ≤ 31

def isLeap (y : Nat) : Bool := y % 4 == 0 && (y % 100 != 0 || y % 400 == 0)

def daysInMonth (y m : Nat) : Nat :=
  if m = 2 then (if isLeap y then 29 else 28)
  else if m = 4 || m = 6 || m = 9 || m = 11 then 30
  else 31

/-- The dates `datetime` can construct (`MINYEAR = 1`, `MAXYEAR = 9999`). -/
def validDate (y m d : Nat) : Bool :=
  1 ≤ y && y ≤ 9999 && 1 ≤ m && m ≤ 12 && 1 ≤ d && d ≤ daysInMonth y m

/-- Split `digits sep digits sep digits` consuming the whole input, returning
the three digit runs. -/
def parse3 (sep : Char) (cs : List Char) : Option (List Char × List Char × List Char) :=
  match cs.dropWhile Char.isDigit with
  | c1 :: r2 =>
    if c1 = sep then
      match r2.dropWhile Char.isDigit with
      | c2 :: r4 =>
        if c2 = sep then
          if r4.dropWhile Char.isDigit = [] then
            some (cs.takeWhile Char.isDigit, r2.takeWhile Char.isDigit,
              r4.takeWhile Char.isDigit)
          else none
        else none
      | [] => none
    else none
  | [] => none

/-- Model of `datetime.strptime(text, "%Y-%m-%d")`, returning `(year, month, day)`. -/
def strptimeYMD (cs : List Char) : Option (Nat × Nat × Nat) :=
  match parse3 '-' cs with
  | some (ys, ms, ds) =>
    if yearOk ys && monthOk ms && dayOk ds &&
        validDate (natOf ys) (natOf ms) (natOf ds) then
      some (natOf ys, natOf ms, natOf ds)
    else none
  | none => none

/-- Model of `datetime.strptime(text, "%m?%d?%Y")` with separator `sep`. -/
def strptimeMDY (sep : Char) (cs : List Char) : Option (Nat × Nat × Nat) :=
  match parse3 sep cs with
  | some (ms, ds, ys) =>
    if yearOk ys && monthOk ms && dayOk ds &&
        validDate (natOf ys) (natOf ms) (natOf ds) then
      some (natOf ys, natOf ms, natOf ds)
    else none
  | none => none

/-- Zero-padded decimal rendering to width `w`. -/
def padNum (w n : Nat) : String :=
  String.mk (List.replicate (w - (Nat.repr n).length) '0' ++ (Nat.repr n).data)

/-- Model of `parsed.strftime("%Y-%m-%d")`. -/
def renderDate (y m d : Nat) : String :=
  padNum 4 y ++ "-" ++ padNum 2 m ++ "-" ++ padNum 2 d

/-- Model of `normalize_date_input` (src/webapp/app.py:39-51): falsy or whitespace-only
input is no override; otherwise the three formats are tried in order and the
first successful parse is re-rendered as `YYYY-MM-DD`; failure of all three is
no override, not an error. -/
def normalize_date_input (v : Option String) : Option String :=
  match v with
  | none => none
  | some s =>
    if s = "" then none
    else
      let text := pyStrip s
      if text = "" then none
      else
        match strptimeYMD text.data with
        | some (y, m, d) => some (renderDate y m d)
        | none =>
          match strptimeMDY '/' text.data with
          | some (y, m, d) => some (renderDate y m d)
          | none =>
            match strptimeMDY '-' text.data with
            | some (y, m, d) => some (renderDate y m d)
            | none => none

lemma dropWhile_all {p : Char → Bool} :
    ∀ l : List Char, (∀ c ∈ l, p c = true) → l.dropWhile p = [] := by
  intro l
  induction l with
  | nil => intro _; rfl
  | cons c rest ih =>
    intro h
    rw [List.dropWhile_cons_of_pos (h c (List.mem_cons_self c rest))]
    exact ih (fun d hd => h d (List.mem_cons_of_mem _ hd))

lemma takeWhile_append_stop {p : Char → Bool} :
    ∀ (xs : List Char) (c : Char) (rest : List Char), (∀ x ∈ xs, p x = true) →
      p c = false →
      (xs ++ c :: rest).takeWhile p = xs ∧ (xs ++ c :: rest).dropWhile p = c :: rest := by
  intro xs
  induction xs with
  | nil =>
    intro c rest _ hc
    constructor
    · rw [List.nil_append, List.takeWhile_cons_of_neg (by simp [hc])]
    · rw [List.nil_append, List.dropWhile_cons_of_neg (by simp [hc])]
  | cons x xs ih =>
    intro c rest hall hc
    have hx : p x = true := hall x (List.mem_cons_self x xs)
    have ihr := ih c rest (fun d hd => hall d (List.mem_cons_of_mem _ hd)) hc
    constructor
    · rw [List.cons_append, List.takeWhile_cons_of_pos hx, ihr.1]
    · rw [List.cons_append, List.dropWhile_cons_of_pos hx, ihr.2]

lemma allDigits_mem {cs : List Char} (h : allDigits cs = true) :
    ∀ c ∈ cs, Char.isDigit c = true := by
  intro c hc
  exact List.all_eq_true.mp h c hc

lemma parse3_sound (sep : Char) (cs a b d : List Char)
    (h : parse3 sep cs = some (a, b, d)) : cs = a ++ sep :: (b ++ sep :: d) := by
  unfold parse3 at h
  cases h1 : cs.dropWhile Char.isDigit with
  | nil => rw [h1] at h; cases h
  | cons c1 r2 =>
    rw [h1] at h
    dsimp only at h
    by_cases hc1 : c1 = sep
    · rw [if_pos hc1] at h
      cases h2 : r2.dropWhile Char.isDigit with
      | nil => rw [h2] at h; cases h
      | cons c2 r4 =>
        rw [h2] at h
        dsimp only at h
        by_cases hc2 : c2 = sep
        · rw [if_pos hc2] at h
          by_cases h3 : r4.dropWhile Char.isDigit = []
          · rw [if_pos h3] at h
            simp only [Option.some.injEq, Prod.mk.injEq] at h
            obtain ⟨ha, hb, hd⟩ := h
            have hcs : cs.takeWhile Char.isDigit ++ (c1 :: r2) = cs := by
              rw [← h1]
              exact List.takeWhile_append_dropWhile Char.isDigit cs
            have hr2 : r2.takeWhile Char.isDigit ++ (c2 :: r4) = r2 := by
              rw [← h2]
              exact List.takeWhile_append_dropWhile Char.isDigit r2
            have hr4 : r4.takeWhile Char.isDigit = r4 := by
              have := List.takeWhile_append_dropWhile Char.isDigit r4
              rw [h3, List.append_nil] at this
              exact this
            have hrd : r4 = d := hr4 ▸ hd
            have hr2x : r2 = b ++ sep :: d := by
              rw [← hr2, hb, hc2, hrd]
            rw [← hcs, ha, hc1, hr2x]
          · rw [if_neg h3] at h; cases h
        · rw [if_neg hc2] at h; cases h
    · rw [if_neg hc1] at h; cases h

lemma parse3_complete (sep : Char) (a b d : List Char)
    (ha : allDigits a = true) (hb : allDigits b = true) (hd : allDigits d = true)
    (hsep : Char.isDigit sep = false) :
    parse3 sep (a ++ sep :: (b ++ sep :: d)) = some (a, b, d) := by
  have h1 := takeWhile_append_stop a sep (b ++ sep :: d) (allDigits_mem ha) hsep
  have h2 := takeWhile_append_stop b sep d (allDigits_mem hb) hsep
  unfold parse3
  rw [h1.2]
  dsimp only
  rw [if_pos rfl, h2.2]
  dsimp only
  rw [if_pos rfl, dropWhile_all d (allDigits_mem hd)]
  rw [if_pos rfl, h1.1, h2.1, takeWhile_all d (allDigits_mem hd)]

lemma parse3_badsep (sep : Char) (a : List Char) (c : Char) (rest : List Char)
    (ha : allDigits a = true) (hcd : Char.isDigit c = false) (hne : c ≠ sep) :
    parse3 sep (a ++ c :: rest) = none := by
  have h1 := takeWhile_append_stop a c rest (allDigits_mem ha) hcd
  unfold parse3
  rw [h1.2]
  dsimp only
  rw [if_neg hne]

lemma yearOk_digits {cs : List Char} (h : yearOk cs = true) : allDigits cs = true :=
  (Bool.and_eq_true_iff.mp h).1

lemma monthOk_digits {cs : List Char} (h : monthOk cs = true) : allDigits cs = true :=
  (Bool.and_eq_true_iff.mp (Bool.and_eq_true_iff.mp (Bool.and_eq_true_iff.mp h).1).1).1

lemma dayOk_digits {cs : List Char} (h : dayOk cs = true) : allDigits cs = true :=
  (Bool.and_eq_true_iff.mp (Bool.and_eq_true_iff.mp (Bool.and_eq_true_iff.mp h).1).1).1

lemma yearOk_ne_nil {cs : List Char} (h : yearOk cs = true) : cs ≠ [] := by
  intro hc
  subst hc
  cases h

lemma monthOk_not_year {cs : List Char} (h : monthOk cs = true) : yearOk cs = false := by
  have hlen : cs.length = 1 ∨ cs.length = 2 := by
    have h2 := (Bool.and_eq_true_iff.mp (Bool.and_eq_true_iff.mp (Bool.and_eq_true_iff.mp h).1).1).2
    rcases Bool.or_eq_true_iff.mp h2 with h3 | h3
    · exact Or.inl (by simpa using h3)
    · exact Or.inr (by simpa using h3)
  unfold yearOk
  rcases hlen with h1 | h1 <;> simp [h1]

lemma strptimeYMD_sound (cs : List Char) (y m d : Nat)
    (h : strptimeYMD cs = some (y, m, d)) :
    ∃ ys ms ds, cs = ys ++ '-' :: (ms ++ '-' :: ds) ∧ yearOk ys = true ∧
      monthOk ms = true ∧ dayOk ds = true ∧ validDate y m d = true ∧
      natOf ys = y ∧ natOf ms = m ∧ natOf ds = d := by
  unfold strptimeYMD at h
  cases hp : parse3 '-' cs with
  | none => rw [hp] at h; cases h
  | some trip =>
    obtain ⟨ys, ms, ds⟩ := trip
    rw [hp] at h
    dsimp only at h
    by_cases hc : (yearOk ys && monthOk ms && dayOk ds &&
        validDate (natOf ys) (natOf ms) (natOf ds)) = true
    · rw [if_pos hc] at h
      simp only [Option.some.injEq, Prod.mk.injEq] at h
      obtain ⟨hy, hm, hd2⟩ := h
      simp only [Bool.and_eq_true] at hc
      refine ⟨ys, ms, ds, parse3_sound '-' cs ys ms ds hp, hc.1.1.1, hc.1.1.2, hc.1.2,
        ?_, hy, hm, hd2⟩
      rw [← hy, ← hm, ← hd2]
      exact hc.2
    · rw [if_neg hc] at h; cases h

lemma strptimeMDY_sound (sep : Char) (cs : List Char) (y m d : Nat)
    (h : strptimeMDY sep cs = some (y, m, d)) :
    ∃ ms ds ys, cs = ms ++ sep :: (ds ++ sep :: ys) ∧ yearOk ys = true ∧
      monthOk ms = true ∧ dayOk ds = true ∧ validDate y m d = true ∧
      natOf ys = y ∧ natOf ms = m ∧ natOf ds = d := by
  unfold strptimeMDY at h
  cases hp : parse3 sep cs with
  | none => rw [hp] at h; cases h
  | some trip =>
    obtain ⟨ms, ds, ys⟩ := trip
    rw [hp] at h
    dsimp only at h
    by_cases hc : (yearOk ys && monthOk ms && dayOk ds &&
        validDate (natOf ys) (natOf ms) (natOf ds)) = true
    · rw [if_pos hc] at h
      simp only [Option.some.injEq, Prod.mk.injEq] at h
      obtain ⟨hy, hm, hd2⟩ := h
      simp only [Bool.and_eq_true] at hc
      refine ⟨ms, ds, ys, parse3_sound sep cs ms ds ys hp, hc.1.1.1, hc.1.1.2, hc.1.2,
        ?_, hy, hm, hd2⟩
      rw [← hy, ← hm, ← hd2]
      exact hc.2
    · rw [if_neg hc] at h; cases h

lemma strptimeYMD_complete (ys ms ds : List Char) (hy : yearOk ys = true)
    (hm : monthOk ms = true) (hd : dayOk ds = true)
    (hv : validDate (natOf ys) (natOf ms) (natOf ds) = true) :
    strptimeYMD (ys ++ '-' :: (ms ++ '-' :: ds)) =
      some (natOf ys, natOf ms, natOf ds) := by
  unfold strptimeYMD
  rw [parse3_complete '-' ys ms ds (yearOk_digits hy) (monthOk_digits hm)
    (dayOk_digits hd) (by decide)]
  dsimp only
  rw [if_pos (by simp [hy, hm, hd, hv])]

lemma strptimeMDY_complete (sep : Char) (ms ds ys : List Char)
    (hsep : Char.isDigit sep = false) (hy : yearOk ys = true)
    (hm : monthOk ms = true) (hd : dayOk ds = true)
    (hv : validDate (natOf ys) (natOf ms) (natOf ds) = true) :
    strptimeMDY sep (ms ++ sep :: (ds ++ sep :: ys)) =
      some (natOf ys, natOf ms, natOf ds) := by
  unfold strptimeMDY
  rw [parse3_complete sep ms ds ys (monthOk_digits hm) (dayOk_digits hd)
    (yearOk_digits hy) hsep]
  dsimp only
  rw [if_pos (by simp [hy, hm, hd, hv])]

lemma strptimeYMD_slash_none (ms : List Char) (rest : List Char)
    (h : allDigits ms = true) : strptimeYMD (ms ++ '/' :: rest) = none := by
  unfold strptimeYMD
  rw [parse3_badsep '-' ms '/' rest h (by decide) (by decide)]

lemma strptimeMDY_dash_none (a : List Char) (rest : List Char)
    (h : allDigits a = true) : strptimeMDY '/' (a ++ '-' :: rest) = none := by
  unfold strptimeMDY
  rw [parse3_badsep '/' a '-' rest h (by decide) (by decide)]

lemma strptimeYMD_mdy_none (ms ds ys : List Char) (hm : monthOk ms = true)
    (hd : dayOk ds = true) (hy : yearOk ys = true) :
    strptimeYMD (ms ++ '-' :: (ds ++ '-' :: ys)) = none := by
  unfold strptimeYMD
  rw [parse3_complete '-' ms ds ys (monthOk_digits hm) (dayOk_digits hd)
    (yearOk_digits hy) (by decide)]
  dsimp only
  rw [if_neg (by simp [monthOk_not_year hm])]

lemma monthOk_ne_nil {cs : List Char} (h : monthOk cs = true) : cs ≠ [] := by
  intro hc
  subst hc
  cases h

lemma normalize_empty (s : String) (h : pyStrip s = "") :
    normalize_date_input (some s) = none := by
  unfold normalize_date_input
  dsimp only
  by_cases hs : s = ""
  · rw [if_pos hs]
  · rw [if_neg hs]
    rw [if_pos h]

lemma normalize_eval (s : String) (hs : pyStrip s ≠ "") :
    normalize_date_input (some s) =
      (match strptimeYMD (pyStrip s).data with
       | some (y, m, d) => some (renderDate y m d)
       | none =>
         match strptimeMDY '/' (pyStrip s).data with
         | some (y, m, d) => some (renderDate y m d)
         | none =>
           match strptimeMDY '-' (pyStrip s).data with
           | some (y, m, d) => some (renderDate y m d)
           | none => none) := by
  have hs0 : s ≠ "" := by
    intro h
    subst h
    exact hs rfl
  unfold normalize_date_input
  dsimp only
  rw [if_neg hs0, if_neg hs]

/-- The strings the three `strptime` formats accept, together with the date
they denote: a `YYYY-MM-DD`, `MM/DD/YYYY` or `MM-DD-YYYY` decomposition into
digit runs satisfying the field constraints of `%Y`, `%m` and `%d`. -/
def acceptsDateRepr (cs : List Char) (y m d : Nat) : Prop :=
  (∃ ys ms ds, cs = ys ++ '-' :: (ms ++ '-' :: ds) ∧ yearOk ys = true ∧
    monthOk ms = true ∧ dayOk ds = true ∧ natOf ys = y ∧ natOf ms = m ∧ natOf ds = d) ∨
  (∃ ms ds ys, cs = ms ++ '/' :: (ds ++ '/' :: ys) ∧ yearOk ys = true ∧
    monthOk ms = true ∧ dayOk ds = true ∧ natOf ys = y ∧ natOf ms = m ∧ natOf ds = d) ∨
  (∃ ms ds ys, cs = ms ++ '-' :: (ds ++ '-' :: ys) ∧ yearOk ys = true ∧
    monthOk ms = true ∧ dayOk ds = true ∧ natOf ys = y ∧ natOf ms = m ∧ natOf ds = d)

/-- C6 (confirmed).  Date normalization is total (no error is ever raised,
absence is the only failure mode): a missing value or a whitespace-only value
is no override, and a stripped value is accepted exactly when it is a
`YYYY-MM-DD`, `MM/DD/YYYY` or `MM-DD-YYYY` representation of a constructible
calendar date, in which case the output is that date rendered as
`YYYY-MM-DD`. -/
theorem c6_theorem :
    normalize_date_input none = none ∧
    (∀ s, pyStrip s = "" → normalize_date_input (some s) = none) ∧
    (∀ s t, normalize_date_input (some s) = some t ↔
      ∃ y m d, validDate y m d = true ∧ t = renderDate y m d ∧
        acceptsDateRepr (pyStrip s).data y m d) := by
  refine ⟨rfl, normalize_empty, ?_⟩
  intro s t
  constructor
  · intro hn
    have hs : pyStrip s ≠ "" := by
      intro h
      rw [normalize_empty s h] at hn
      cases hn
    rw [normalize_eval s hs] at hn
    cases h1 : strptimeYMD (pyStrip s).data with
    | some trip =>
      obtain ⟨y', m', d'⟩ := trip
      rw [h1] at hn
      dsimp only at hn
      obtain ⟨ys, ms, ds, hcs, hy, hm, hd, hv, hny, hnm, hnd⟩ :=
        strptimeYMD_sound _ _ _ _ h1
      exact ⟨y', m', d', hv, (Option.some.inj hn).symm,
        Or.inl ⟨ys, ms, ds, hcs, hy, hm, hd, hny, hnm, hnd⟩⟩
    | none =>
      rw [h1] at hn
      dsimp only at hn
      cases h2 : strptimeMDY '/' (pyStrip s).data with
      | some trip =>
        obtain ⟨y', m', d'⟩ := trip
        rw [h2] at hn
        dsimp only at hn
        obtain ⟨ms, ds, ys, hcs, hy, hm, hd, hv, hny, hnm, hnd⟩ :=
          strptimeMDY_sound _ _ _ _ _ h2
        exact ⟨y', m', d', hv, (Option.some.inj hn).symm,
          Or.inr (Or.inl ⟨ms, ds, ys, hcs, hy, hm, hd, hny, hnm, hnd⟩)⟩
      | none =>
        rw [h2] at hn
        dsimp only at hn
        cases h3 : strptimeMDY '-' (pyStrip s).data with
        | some trip =>
          obtain ⟨y', m', d'⟩ := trip
          rw [h3] at hn
          dsimp only at hn
          obtain ⟨ms, ds, ys, hcs, hy, hm, hd, hv, hny, hnm, hnd⟩ :=
            strptimeMDY_sound _ _ _ _ _ h3
          exact ⟨y', m', d', hv, (Option.some.inj hn).symm,
            Or.inr (Or.inr ⟨ms, ds, ys, hcs, hy, hm, hd, hny, hnm, hnd⟩)⟩
        | none =>
          rw [h3] at hn
          cases hn
  · rintro ⟨y, m, d, hv, ht, hacc⟩
    rcases hacc with ⟨ys, ms, ds, hcs, hy, hm, hd, hny, hnm, hnd⟩ |
        ⟨ms, ds, ys, hcs, hy, hm, hd, hny, hnm, hnd⟩ |
        ⟨ms, ds, ys, hcs, hy, hm, hd, hny, hnm, hnd⟩
    · have hs : pyStrip s ≠ "" := by
        intro h
        have hdata : (pyStrip s).data = [] := by rw [h]
        rw [hcs] at hdata
        exact absurd hdata (by simp)
      rw [normalize_eval s hs, hcs,
        strptimeYMD_complete ys ms ds hy hm hd (by rw [hny, hnm, hnd]; exact hv)]
      dsimp only
      rw [hny, hnm, hnd, ht]
    · have hs : pyStrip s ≠ "" := by
        intro h
        have hdata : (pyStrip s).data = [] := by rw [h]
        rw [hcs] at hdata
        exact absurd hdata (by simp)
      rw [normalize_eval s hs, hcs,
        strptimeYMD_slash_none ms (ds ++ '/' :: ys) (monthOk_digits hm)]
      dsimp only
      rw [strptimeMDY_complete '/' ms ds ys (by decide) hy hm hd
        (by rw [hny, hnm, hnd]; exact hv)]
      dsimp only
      rw [hny, hnm, hnd, ht]
    · have hs : pyStrip s ≠ "" := by
        intro h
        have hdata : (pyStrip s).data = [] := by rw [h]
        rw [hcs] at hdata
        exact absurd hdata (by simp)
      rw [normalize_eval s hs, hcs, strptimeYMD_mdy_none ms ds ys hm hd hy]
      dsimp only
      rw [strptimeMDY_dash_none ms (ds ++ '-' :: ys) (monthOk_digits hm)]
      dsimp only
      rw [strptimeMDY_complete '-' ms ds ys (by decide) hy hm hd
        (by rw [hny, hnm, hnd]; exact hv)]
      dsimp only
      rw [hny, hnm, hnd, ht]

/-- C6 witness: a whitespace-only input is no override (via the theorem), and
the spec's examples normalize as claimed. -/
theorem c6_witness :
    (pyStrip "  " = "" ∧ normalize_date_input (some "  ") = none) ∧
    normalize_date_input (some "11/08/2025") = some "2025-11-08" ∧
    normalize_date_input (some "2025-11-08") = some "2025-11-08" ∧
    normalize_date_input (some "not-a-date") = none :=
  ⟨⟨by decide, c6_theorem.2.1 "  " (by decide)⟩, by decide, by decide, by decide⟩

/-! Part: Query Catalog (`extract_query_metadata` / `discover_queries`,
src/webapp/app.py:127-165)

`ast.parse` is an external facility; it is modelled as an oracle
`parse : String → Option PyModule` returning the statically inspectable
shape of the module (`none` models `SyntaxError`), and `read_text` as an
optional field (`none` models `OSError`). -/

/-- ASCII uppercasing of a single character. -/
def upperChar (c : Char) : Char :=
  match lowerTable.find? (fun p => p.2 == c) with
  | some p => p.1
  | none => c

/-- Model of `str.title()` (ASCII): a letter after a non-letter is uppercased, a
letter after a letter is lowercased, other characters pass through. -/
def pyTitleGo : Bool → List Char → List Char
  | _, [] => []
  | prevCased, c :: rest =>
    if c.isAlpha then (if prevCased then lowerChar c else upperChar c) :: pyTitleGo true rest
    else c :: pyTitleGo false rest

def pyTitle (s : String) : String := String.mk (pyTitleGo false s.data)

/-- Model of `identifier.replace("_", " ").title()`: the fallback title. -/
def defaultTitle (stem : String) : String :=
  pyTitle (String.mk (stem.data.map (fun c => if c = '_' then ' ' else c)))

/-- The statically inspected shape of a module expression: a bare name, a
string constant, or anything else. -/
inductive PyExpr
  | name (id : String)
  | constStr (s : String)
  | otherE
deriving DecidableEq

/-- A top-level statement: an assignment (targets and value) or anything else. -/
inductive PyStmt
  | assign (targets : List PyExpr) (value : PyExpr)
  | other
deriving DecidableEq

/-- The result of `ast.parse` as far as the catalog inspects it: the module
docstring and the top-level statement list. -/
structure PyModule where
  docstring : Option String
  body : List PyStmt
deriving DecidableEq

/-- One target of one assignment: a `QUERY_NAME = "<literal>"` binding with a
nonempty stripped value overrides the current title. -/
def applyTarget (value : PyExpr) (acc : String) (tg : PyExpr) : String :=
  match tg, value with
  | .name id, .constStr s => if id = "QUERY_NAME" ∧ pyStrip s ≠ "" then pyStrip s else acc
  | _, _ => acc

/-- The `for node in module.body` loop: later matching assignments win. -/
def scanTitle : String → List PyStmt → String
  | title, [] => title
  | title, .assign targets value :: rest =>
    scanTitle (targets.foldl (applyTarget value) title) rest
  | title, .other :: rest => scanTitle title rest

structure QueryDefinition where
  identifier : String
  title : String
  file_path : String
  summary : Option String
deriving DecidableEq

/-- A file of the query directory: the stem of its name, and the result of
`read_text` (`none` models `OSError`). -/
structure ScriptSource where
  stem : String
  read : Option String
deriving DecidableEq

/-- Python line-break characters recognised by `str.splitlines`. -/
def lineBreakChar (c : Char) : Bool :=
  c = '\n' || c = '\x0d' || c = '\x0b' || c = '\x0c' || c = '\x1c' || c = '\x1d' ||
  c = '\x1e' || c = '\x85' || c = '\u2028' || c = '\u2029'

/-- Model of `s.splitlines()[0]`: `none` when the list is empty (the `IndexError`
case, reachable only for the empty string). -/
def splitlinesFirst (s : String) : Option String :=
  if s = "" then none else some (String.mk (s.data.takeWhile (fun c => !(lineBreakChar c))))

/-- Model of `extract_query_metadata` (src/webapp/app.py:138-165): `OSError` and
`SyntaxError` are swallowed, leaving the mechanically derived default title;
an all-whitespace docstring raises an uncaught `IndexError` (modelled as the
`.error` case); a parsed module contributes the first docstring line as
summary and a `QUERY_NAME` constant as title. -/
def extract_query_metadata (parse : String → Option PyModule) (f : ScriptSource) :
    Except String QueryDefinition :=
  let identifier := f.stem
  let fname := f.stem ++ ".py"
  let title0 := defaultTitle identifier
  match f.read with
  | none => .ok ⟨identifier, title0, fname, none⟩
  | some src =>
    match parse src with
    | none => .ok ⟨identifier, title0, fname, none⟩
    | some m =>
      let title := scanTitle title0 m.body
      match m.docstring with
      | none => .ok ⟨identifier, title, fname, none⟩
      | some ds =>
        if ds = "" then .ok ⟨identifier, title, fname, none⟩
        else
          match splitlinesFirst (pyStrip ds) with
          | none => .error "IndexError: list index out of range"
          | some firstLine =>
            .ok ⟨identifier, title, fname,
              if firstLine ≠ "" then some firstLine else none⟩

/-- Codepoint-order comparison of file names (Python's `sorted` on paths). -/
def lexLe : List Char → List Char → Bool
  | [], _ => true
  | _ :: _, [] => false
  | a :: as, b :: bs => if a = b then lexLe as bs else decide (a.toNat < b.toNat)

def fileName (f : ScriptSource) : String := f.stem ++ ".py"

def insertFile (f : ScriptSource) : List ScriptSource → List ScriptSource
  | [] => [f]
  | g :: rest =>
    if lexLe (fileName f).data (fileName g).data then f :: g :: rest
    else g :: insertFile f rest

/-- Model of `sorted(QUERY_DIR.glob("*.py"))` as an insertion sort by file name. -/
def sortFiles : List ScriptSource → List ScriptSource
  | [] => []
  | f :: rest => insertFile f (sortFiles rest)

/-- Mapping a fallible extraction over the directory listing; the first
uncaught exception aborts the scan. -/
def mapEx (g : ScriptSource → Except String QueryDefinition) :
    List ScriptSource → Except String (List QueryDefinition)
  | [] => .ok []
  | x :: xs =>
    match g x with
    | .error e => .error e
    | .ok y =>
      match mapEx g xs with
      | .error e => .error e
      | .ok ys => .ok (y :: ys)

/-- Model of `discover_queries` (src/webapp/app.py:127-135): every script of the sorted
listing yields one entry — nothing is filtered out. -/
def discover_queries (parse : String → Option PyModule) (files : List ScriptSource) :
    Except String (List QueryDefinition) :=
  mapEx (extract_query_metadata parse) (sortFiles files)

lemma mem_insertFile (f x : ScriptSource) :
    ∀ l : List ScriptSource, x ∈ insertFile f l ↔ x = f ∨ x ∈ l := by
  intro l
  induction l with
  | nil => simp [insertFile]
  | cons g rest ih =>
    unfold insertFile
    by_cases h : lexLe (fileName f).data (fileName g).data = true
    · rw [if_pos h]
      simp
    · rw [if_neg h]
      simp only [List.mem_cons, ih]
      tauto

lemma mem_sortFiles (x : ScriptSource) :
    ∀ l : List ScriptSource, x ∈ sortFiles l ↔ x ∈ l := by
  intro l
  induction l with
  | nil => simp [sortFiles]
  | cons f rest ih =>
    unfold sortFiles
    rw [mem_insertFile, ih]
    simp

lemma mapEx_mem (g : ScriptSource → Except String QueryDefinition) :
    ∀ (l : List ScriptSource) (ys : List QueryDefinition) (x : ScriptSource),
      mapEx g l = .ok ys → x ∈ l → ∃ y, g x = .ok y ∧ y ∈ ys := by
  intro l
  induction l with
  | nil => intro ys x _ hx; cases hx
  | cons a rest ih =>
    intro ys x h hx
    unfold mapEx at h
    cases hga : g a with
    | error e => rw [hga] at h; cases h
    | ok y =>
      rw [hga] at h
      dsimp only at h
      cases hrest : mapEx g rest with
      | error e => rw [hrest] at h; cases h
      | ok ys0 =>
        rw [hrest] at h
        dsimp only at h
        obtain rfl : y :: ys0 = ys := by
          simpa using h
        rcases List.mem_cons.mp hx with rfl | hx
        · exact ⟨y, hga, List.mem_cons_self y ys0⟩
        · obtain ⟨y1, hy1, hy1m⟩ := ih ys0 x hrest hx
          exact ⟨y1, hy1, List.mem_cons_of_mem _ hy1m⟩

/-- C8 counterexample.  A script whose source fails to parse is NOT excluded
from discovery: it is still listed, with the mechanically derived default
title (`broken_query` → `Broken Query`) and no summary. -/
theorem c8_counterexample :
    discover_queries (fun _ => none) [⟨"broken_query", some "def ("⟩] =
      .ok [⟨"broken_query", "Broken Query", "broken_query.py", none⟩] := by
  decide

/-- C8 (amended).  For any script whose source cannot be read or cannot be
parsed, metadata extraction fails silently — it returns a definition (never
an error) carrying the default title derived from the filename and no
summary — and discovery retains the entry in its result rather than
excluding it. -/
theorem c8_theorem (parse : String → Option PyModule) (files : List ScriptSource)
    (f : ScriptSource) :
    (∀ src, f.read = some src → parse src = none →
      extract_query_metadata parse f =
        .ok ⟨f.stem, defaultTitle f.stem, f.stem ++ ".py", none⟩) ∧
    (f.read = none →
      extract_query_metadata parse f =
        .ok ⟨f.stem, defaultTitle f.stem, f.stem ++ ".py", none⟩) ∧
    (∀ defs, discover_queries parse files = .ok defs → f ∈ files →
      (f.read = none ∨ ∃ src, f.read = some src ∧ parse src = none) →
      (⟨f.stem, defaultTitle f.stem, f.stem ++ ".py", none⟩ : QueryDefinition) ∈ defs) := by
  have hext : (f.read = none ∨ ∃ src, f.read = some src ∧ parse src = none) →
      extract_query_metadata parse f =
        .ok ⟨f.stem, defaultTitle f.stem, f.stem ++ ".py", none⟩ := by
    rintro (hr | ⟨src, hr, hp⟩)
    · unfold extract_query_metadata
      rw [hr]
    · unfold extract_query_metadata
      rw [hr]
      dsimp only
      rw [hp]
  refine ⟨?_, ?_, ?_⟩
  · intro src hr hp
    exact hext (Or.inr ⟨src, hr, hp⟩)
  · intro hr
    exact hext (Or.inl hr)
  · intro defs hdisc hmem hfail
    unfold discover_queries at hdisc
    obtain ⟨y, hy, hym⟩ := mapEx_mem (extract_query_metadata parse) (sortFiles files)
      defs f hdisc ((mem_sortFiles f files).mpr hmem)
    rw [hext hfail] at hy
    obtain rfl : (⟨f.stem, defaultTitle f.stem, f.stem ++ ".py", none⟩ : QueryDefinition) = y := by
      simpa using hy
    exact hym

/-- C8 witness: discovery of a directory holding one unparseable script lists
it under the default title. -/
theorem c8_witness :
    (⟨"broken_query", defaultTitle "broken_query", "broken_query.py", none⟩ :
        QueryDefinition) ∈
      [(⟨"broken_query", "Broken Query", "broken_query.py", none⟩ : QueryDefinition)] :=
  (c8_theorem (fun _ => none) [⟨"broken_query", some "x"⟩] ⟨"broken_query", some "x"⟩).2.2
    [⟨"broken_query", "Broken Query", "broken_query.py", none⟩]
    (by decide) (by decide) (Or.inr ⟨"x", rfl, rfl⟩)

/-! Part: Job Registry and Job Runner (src/webapp/app.py:62-124, 197-245)

Value-level model: the registry is an association list from job id to record;
`update_job` mutates the stored record in place, which at the level of
observable record contents is replacement in the association list.  The uuid,
the clock (ISO timestamps and the file-name timestamp) and the subprocess
outcome (exit code, captured stdout/stderr) are parameters. -/

def JobStatus.QUEUED : String := "queued"

def JobStatus.RUNNING : String := "running"

def JobStatus.COMPLETED : String := "completed"

def JobStatus.ERROR : String := "error"

/-- One job record (the dict built by `JobManager.create_job`). -/
structure Job where
  id : String
  query : String
  title : String
  status : String
  createdAt : String
  updatedAt : String
  stdout : String
  stderr : String
  chartPath : Option String
  dataFiles : List String
  error : Option String
  parameters : List (String × Option String)
deriving DecidableEq

/-- A `**changes` keyword set for `update_job`: `none` means the key is not
present, `some v` means the field is replaced by `v`.  Only the keys the
application ever passes are modelled. -/
structure JobChanges where
  status : Option String := none
  stdout : Option String := none
  stderr : Option String := none
  chartPath : Option (Option String) := none
  dataFiles : Option (List String) := none
  error : Option (Option String) := none
  parameters : Option (List (String × Option String)) := none
deriving DecidableEq

/-- Model of `job.update(changes); job["updatedAt"] = now`. -/
def applyChanges (j : Job) (c : JobChanges) (t : String) : Job :=
  { id := j.id, query := j.query, title := j.title,
    status := c.status.getD j.status,
    createdAt := j.createdAt, updatedAt := t,
    stdout := c.stdout.getD j.stdout, stderr := c.stderr.getD j.stderr,
    chartPath := c.chartPath.getD j.chartPath,
    dataFiles := c.dataFiles.getD j.dataFiles,
    error := c.error.getD j.error,
    parameters := c.parameters.getD j.parameters }

/-- The fresh record of `create_job`: status queued, empty output, no chart,
no data files, no error, empty parameters. -/
def initJob (jobId qIdent qTitle t : String) : Job :=
  ⟨jobId, qIdent, qTitle, JobStatus.QUEUED, t, t, "", "", none, [], none, []⟩

abbrev Registry : Type := List (String × Job)

def rlookup : List (String × Job) → String → Option Job
  | [], _ => none
  | (k, v) :: rest, i => if k = i then some v else rlookup rest i

def rupdate : List (String × Job) → String → (Job → Job) → List (String × Job)
  | [], _, _ => []
  | (k, v) :: rest, i, g => if k = i then (k, g v) :: rest else (k, v) :: rupdate rest i g

/-- Model of `JobManager.create_job` (value level): insert the fresh record. -/
def create_job (m : Registry) (jobId qIdent qTitle t : String) : Registry :=
  (jobId, initJob jobId qIdent qTitle t) :: m

/-- Model of `JobManager.update_job`: merge the changes into the stored record and
refresh `updatedAt`; silently a no-op for an unknown id. -/
def update_job (m : Registry) (jobId : String) (c : JobChanges) (t : String) : Registry :=
  rupdate m jobId (fun j => applyChanges j c t)

/-- Model of `JobManager.get_job`: the record's contents, or `none`. -/
def get_job (m : Registry) (jobId : String) : Option Job := rlookup m jobId

/-- Model of `JobManager.set_result`: store captured streams, the rendered chart path
and the rendered data-file paths. -/
def set_result (m : Registry) (jobId : String) (result : JobResult) (t : String) :
    Registry :=
  update_job m jobId
    { stdout := some result.stdout, stderr := some result.stderr,
      chartPath := some (result.chart_path.map pathToString),
      dataFiles := some (result.data_files.map pathToString) } t

/-- Model of `[A-Za-z0-9_-]`, the characters `safe_query` keeps. -/
def safeChar (c : Char) : Bool := c.isAlpha || c.isDigit || c = '_' || c = '-'

/-- Model of `re.sub(r"[^A-Za-z0-9_-]+", "-", s)`: each maximal unsafe run becomes one
dash. -/
def subUnsafeGo : Bool → List Char → List Char
  | _, [] => []
  | inRun, c :: rest =>
    if safeChar c then c :: subUnsafeGo false rest
    else if inRun then subUnsafeGo true rest
    else '-' :: subUnsafeGo true rest

def stripDashes (cs : List Char) : List Char :=
  ((cs.dropWhile (fun c => c == '-')).reverse.dropWhile (fun c => c == '-')).reverse

/-- Model of `re.sub(...).strip("-") or "query"`. -/
def safeQueryName (qid : String) : String :=
  let s := stripDashes (subUnsafeGo false qid.data)
  if s = [] then "query" else String.mk s

def takeStr (n : Nat) (s : String) : String := String.mk (s.data.take n)

/-- Model of `f"{safe_query}_{timestamp}_{job_id[:8]}_{tag}.txt"`. -/
def outFileName (qid ts jobId tag : String) : String :=
  safeQueryName qid ++ "_" ++ ts ++ "_" ++ takeStr 8 jobId ++ "_" ++ tag ++ ".txt"

/-- The three registry states produced by `run_query_script`
(src/webapp/app.py:197-245) after the subprocess has exited with code `rc`
and streams `stdout`/`stderr`: after the RUNNING update, after `set_result`
(output scanned, auxiliary log files appended to the data files), and after
the final status update (`ERROR` with the trimmed stderr or a generic message
on nonzero exit; `ERROR` with a fixed message when no chart was detected;
`COMPLETED` otherwise). -/
def run_states (env : Env) (m0 : Registry) (jobId qid : String) (rc : Int)
    (stdout stderr ts t1 t2 t3 : String) : Registry × Registry × Registry :=
  let s1 := update_job m0 jobId { status := some JobStatus.RUNNING } t1
  let result0 := parse_generated_files env stdout stderr
  let extraFiles : List (List String) :=
    (if pyStrip stdout ≠ "" then [env.root ++ ["outputs", outFileName qid ts jobId "output"]]
     else []) ++
    (if pyStrip stderr ≠ "" then [env.root ++ ["outputs", outFileName qid ts jobId "stderr"]]
     else [])
  let result : JobResult :=
    ⟨result0.chart_path, result0.data_files ++ extraFiles, result0.stdout, result0.stderr⟩
  let s2 := set_result s1 jobId result t2
  let s3 :=
    if rc ≠ 0 then
      update_job s2 jobId
        { status := some JobStatus.ERROR,
          error := some (some (if pyStrip stderr ≠ "" then pyStrip stderr
            else s!"Query script exited with code {rc}.")) } t3
    else if result0.chart_path = none then
      update_job s2 jobId
        { status := some JobStatus.ERROR,
          error := some (some "Query completed but no chart file was detected in the output.") } t3
    else update_job s2 jobId { status := some JobStatus.COMPLETED } t3
  (s1, s2, s3)

/-- Model of `run_query_script` as the trace of registry states it produces. -/
def run_query_script (env : Env) (m0 : Registry) (jobId qid : String) (rc : Int)
    (stdout stderr ts t1 t2 t3 : String) : List Registry :=
  [(run_states env m0 jobId qid rc stdout stderr ts t1 t2 t3).1,
   (run_states env m0 jobId qid rc stdout stderr ts t1 t2 t3).2.1,
   (run_states env m0 jobId qid rc stdout stderr ts t1 t2 t3).2.2]

lemma rlookup_rupdate_self (i : String) (g : Job → Job) :
    ∀ m : List (String × Job), rlookup (rupdate m i g) i = (rlookup m i).map g := by
  intro m
  induction m with
  | nil => rfl
  | cons kv rest ih =>
    obtain ⟨k, v⟩ := kv
    unfold rupdate
    by_cases hk : k = i
    · rw [if_pos hk]
      unfold rlookup
      rw [if_pos hk, if_pos hk]
      rfl
    · rw [if_neg hk]
      unfold rlookup
      rw [if_neg hk, if_neg hk]
      exact ih

/-- C2 counterexample.  A subprocess that exits with code 1 while naming an
existing in-root chart file in its stdout ends with status `error` AND a
non-null `chartPath`: `set_result` stores the scanned chart unconditionally
before the exit code is examined, so `chartPath` is set although the final
status is never `completed`. -/
theorem c2_counterexample :
    ((get_job (run_states ⟨["proj"], ["home", "u"], fun _ => ["home", "u"],
          fun p => p == ["proj", "chart.png"]⟩
        (create_job [] "j1" "q" "Q" "t0") "j1" "q" 1 "chart.png" "boom"
        "20250101_000000" "t1" "t2" "t3").2.2 "j1").map Job.status =
      some JobStatus.ERROR) ∧
    ((get_job (run_states ⟨["proj"], ["home", "u"], fun _ => ["home", "u"],
          fun p => p == ["proj", "chart.png"]⟩
        (create_job [] "j1" "q" "Q" "t0") "j1" "q" 1 "chart.png" "boom"
        "20250101_000000" "t1" "t2" "t3").2.2 "j1").map Job.chartPath =
      some (some "/proj/chart.png")) := by
  refine ⟨by decide, by decide⟩

/-- C2 (amended).  After a run completes, the job's `chartPath` equals the
rendered chart detected by the Output Scanner — regardless of the final
status, so a job that ends in `error` (nonzero exit) can carry a chart path —
and the final status is `completed` exactly when the exit code is zero and a
chart was detected (hence a `completed` job always has `chartPath` set). -/
theorem c2_theorem (env : Env) (m0 : Registry) (jobId qid : String) (rc : Int)
    (out err ts t1 t2 t3 : String) (j0 : Job) (h : rlookup m0 jobId = some j0) :
    ∃ j, get_job (run_states env m0 jobId qid rc out err ts t1 t2 t3).2.2 jobId = some j ∧
      j.chartPath = (parse_generated_files env out err).chart_path.map pathToString ∧
      (j.status = JobStatus.COMPLETED ↔
        (rc = 0 ∧ (parse_generated_files env out err).chart_path ≠ none)) := by
  unfold run_states
  dsimp only
  by_cases hrc : rc ≠ 0
  · rw [if_pos hrc]
    unfold get_job set_result update_job
    rw [rlookup_rupdate_self, rlookup_rupdate_self, rlookup_rupdate_self, h]
    refine ⟨_, rfl, ?_, ?_⟩
    · simp [applyChanges]
    · simp only [applyChanges, Option.getD]
      constructor
      · intro habs; exact absurd habs (by decide)
      · rintro ⟨h0, -⟩; exact absurd h0 hrc
  · push_neg at hrc
    rw [if_neg (by simp [hrc])]
    by_cases hch : (parse_generated_files env out err).chart_path = none
    · rw [if_pos hch]
      unfold get_job set_result update_job
      rw [rlookup_rupdate_self, rlookup_rupdate_self, rlookup_rupdate_self, h]
      refine ⟨_, rfl, ?_, ?_⟩
      · simp [applyChanges]
      · simp only [applyChanges, Option.getD]
        constructor
        · intro habs; exact absurd habs (by decide)
        · rintro ⟨-, hne⟩; exact absurd hch hne
    · rw [if_neg hch]
      unfold get_job set_result update_job
      rw [rlookup_rupdate_self, rlookup_rupdate_self, rlookup_rupdate_self, h]
      refine ⟨_, rfl, ?_, ?_⟩
      · simp [applyChanges]
      · simp only [applyChanges, Option.getD]
        exact ⟨fun _ => ⟨hrc, hch⟩, fun _ => by trivial⟩

/-- C2 witness: a successful run with a detected chart is `completed` with
that chart path. -/
theorem c2_witness :
    ∃ j, get_job (run_states ⟨["proj"], ["home", "u"], fun _ => ["home", "u"],
          fun p => p == ["proj", "chart.png"]⟩
        (create_job [] "j1" "q" "Q" "t0") "j1" "q" 0 "chart.png" ""
        "20250101_000000" "t1" "t2" "t3").2.2 "j1" = some j ∧
      j.chartPath = (parse_generated_files ⟨["proj"], ["home", "u"],
          fun _ => ["home", "u"], fun p => p == ["proj", "chart.png"]⟩
        "chart.png" "").chart_path.map pathToString ∧
      (j.status = JobStatus.COMPLETED ↔
        ((0 : Int) = 0 ∧ (parse_generated_files ⟨["proj"], ["home", "u"],
            fun _ => ["home", "u"], fun p => p == ["proj", "chart.png"]⟩
          "chart.png" "").chart_path ≠ none)) :=
  c2_theorem ⟨["proj"], ["home", "u"], fun _ => ["home", "u"],
      fun p => p == ["proj", "chart.png"]⟩
    (create_job [] "j1" "q" "Q" "t0") "j1" "q" 0 "chart.png" ""
    "20250101_000000" "t1" "t2" "t3" (initJob "j1" "q" "Q" "t0") (by decide)

/-- C4 (confirmed).  The final status recorded after a subprocess run: on a
nonzero exit code the status is `error` with the trimmed stderr as the
message, or a generic message citing the exit code when the trimmed stderr is
empty; on a zero exit with no chart detected the status is `error` with the
fixed no-chart message; on a zero exit with a chart detected the status is
`completed`. -/
theorem c4_theorem (env : Env) (m0 : Registry) (jobId qid : String) (rc : Int)
    (out err ts t1 t2 t3 : String) (j0 : Job) (h : rlookup m0 jobId = some j0) :
    ∃ j, get_job (run_states env m0 jobId qid rc out err ts t1 t2 t3).2.2 jobId = some j ∧
      (rc ≠ 0 → j.status = JobStatus.ERROR ∧
        j.error = some (if pyStrip err ≠ "" then pyStrip err
          else s!"Query script exited with code {rc}.")) ∧
      (rc = 0 → (parse_generated_files env out err).chart_path = none →
        j.status = JobStatus.ERROR ∧
        j.error = some "Query completed but no chart file was detected in the output.") ∧
      (rc = 0 → (parse_generated_files env out err).chart_path ≠ none →
        j.status = JobStatus.COMPLETED) := by
  unfold run_states
  dsimp only
  by_cases hrc : rc ≠ 0
  · rw [if_pos hrc]
    unfold get_job set_result update_job
    rw [rlookup_rupdate_self, rlookup_rupdate_self, rlookup_rupdate_self, h]
    refine ⟨_, rfl, ?_, ?_, ?_⟩
    · intro _
      constructor
      · simp [applyChanges]
      · simp [applyChanges]
    · intro h0; exact absurd h0 hrc
    · intro h0; exact absurd h0 hrc
  · push_neg at hrc
    rw [if_neg (by simp [hrc])]
    by_cases hch : (parse_generated_files env out err).chart_path = none
    · rw [if_pos hch]
      unfold get_job set_result update_job
      rw [rlookup_rupdate_self, rlookup_rupdate_self, rlookup_rupdate_self, h]
      refine ⟨_, rfl, ?_, ?_, ?_⟩
      · intro hr; exact absurd hrc hr
      · intro _ _
        constructor
        · simp [applyChanges]
        · simp [applyChanges]
      · intro _ hne; exact absurd hch hne
    · rw [if_neg hch]
      unfold get_job set_result update_job
      rw [rlookup_rupdate_self, rlookup_rupdate_self, rlookup_rupdate_self, h]
      refine ⟨_, rfl, ?_, ?_, ?_⟩
      · intro hr; exact absurd hrc hr
      · intro _ habs; exact absurd habs hch
      · intro _ _
        simp [applyChanges]

/-- C4 witness: exit code 1 with stderr `boom` yields status `error` and
error message `boom`. -/
theorem c4_witness :
    ∃ j, get_job (run_states ⟨["proj"], ["home", "u"], fun _ => ["home", "u"],
          fun p => p == ["proj", "chart.png"]⟩
        (create_job [] "j1" "q" "Q" "t0") "j1" "q" 1 "out" "boom"
        "20250101_000000" "t1" "t2" "t3").2.2 "j1" = some j ∧
      ((1 : Int) ≠ 0 → j.status = JobStatus.ERROR ∧
        j.error = some (if pyStrip "boom" ≠ "" then pyStrip "boom"
          else s!"Query script exited with code {(1 : Int)}.")) ∧
      ((1 : Int) = 0 → (parse_generated_files ⟨["proj"], ["home", "u"],
            fun _ => ["home", "u"], fun p => p == ["proj", "chart.png"]⟩
          "out" "boom").chart_path = none →
        j.status = JobStatus.ERROR ∧
        j.error = some "Query completed but no chart file was detected in the output.") ∧
      ((1 : Int) = 0 → (parse_generated_files ⟨["proj"], ["home", "u"],
            fun _ => ["home", "u"], fun p => p == ["proj", "chart.png"]⟩
          "out" "boom").chart_path ≠ none →
        j.status = JobStatus.COMPLETED) :=
  c4_theorem ⟨["proj"], ["home", "u"], fun _ => ["home", "u"],
      fun p => p == ["proj", "chart.png"]⟩
    (create_job [] "j1" "q" "Q" "t0") "j1" "q" 1 "out" "boom"
    "20250101_000000" "t1" "t2" "t3" (initJob "j1" "q" "Q" "t0") (by decide)

/-! Part: Reference-level model of the JobManager (C3)

Python dictionaries are heap objects: `create_job` ends with
`return self._jobs[job_id]` — the very dict stored in the registry — while
`get_job` returns `dict(job)`, a freshly allocated copy.  This model makes
object identity explicit: the heap maps references (in allocation order) to
record contents, the registry maps job ids to references, and each operation
reads, writes or allocates on the heap. -/

structure RefState where
  heap : List (Nat × Job)
  next : Nat
  jobs : List (String × Nat)
deriving DecidableEq

def hlookup : List (Nat × Job) → Nat → Option Job
  | [], _ => none
  | (k, v) :: rest, r => if k = r then some v else hlookup rest r

def hwrite : List (Nat × Job) → Nat → Job → List (Nat × Job)
  | [], _, _ => []
  | (k, v) :: rest, r, j => if k = r then (k, j) :: rest else (k, v) :: hwrite rest r j

def nlookup : List (String × Nat) → String → Option Nat
  | [], _ => none
  | (k, v) :: rest, i => if k = i then some v else nlookup rest i

/-- Model of `JobManager.create_job` at reference level: allocate the dict, store its
reference in `_jobs`, and return that same reference. -/
def create_jobR (s : RefState) (jobId qIdent qTitle t : String) : Nat × RefState :=
  (s.next,
   ⟨(s.next, initJob jobId qIdent qTitle t) :: s.heap, s.next + 1,
    (jobId, s.next) :: s.jobs⟩)

/-- Model of `JobManager.update_job` at reference level: mutate the stored dict in
place (silently a no-op for an unknown id). -/
def update_jobR (s : RefState) (jobId : String) (c : JobChanges) (t : String) : RefState :=
  match nlookup s.jobs jobId with
  | none => s
  | some r =>
    match hlookup s.heap r with
    | none => s
    | some j => ⟨hwrite s.heap r (applyChanges j c t), s.next, s.jobs⟩

/-- Model of `JobManager.get_job` at reference level: `dict(job) if job else None` — for
a present id, a fresh dict is allocated with the current contents and its
reference is returned; the registry keeps pointing at the original. -/
def get_jobR (s : RefState) (jobId : String) : Option Nat × RefState :=
  match nlookup s.jobs jobId with
  | none => (none, s)
  | some r =>
    match hlookup s.heap r with
    | none => (none, s)
    | some j => (some s.next, ⟨(s.next, j) :: s.heap, s.next + 1, s.jobs⟩)

/-- Well-formedness: every reference stored in the id table was allocated. -/
def WFState (s : RefState) : Prop := ∀ p ∈ s.jobs, p.2 < s.next

lemma hlookup_hwrite_ne (r r' : Nat) (j : Job) (hne : r ≠ r') :
    ∀ h : List (Nat × Job), hlookup (hwrite h r j) r' = hlookup h r' := by
  intro h
  induction h with
  | nil => rfl
  | cons kv rest ih =>
    obtain ⟨k, v⟩ := kv
    unfold hwrite
    by_cases hk : k = r
    · rw [if_pos hk]
      unfold hlookup
      rw [if_neg (by rw [hk]; exact hne), if_neg (by rw [hk]; exact hne)]
    · rw [if_neg hk]
      unfold hlookup
      by_cases hk2 : k = r'
      · rw [if_pos hk2, if_pos hk2]
      · rw [if_neg hk2, if_neg hk2]
        exact ih

lemma nlookup_mem : ∀ (l : List (String × Nat)) (i : String) (r : Nat),
    nlookup l i = some r → (i, r) ∈ l := by
  intro l
  induction l with
  | nil => intro i r h; cases h
  | cons kv rest ih =>
    obtain ⟨k, v⟩ := kv
    intro i r h
    unfold nlookup at h
    by_cases hk : k = i
    · rw [if_pos hk] at h
      obtain rfl : v = r := by simpa using h
      rw [hk]
      exact List.mem_cons_self _ _
    · rw [if_neg hk] at h
      exact List.mem_cons_of_mem _ (ih i r h)

/-- C3 counterexample.  The reference returned by `create_job` is the live
registry record, not a defensive copy: a subsequent `update_job` changes the
contents observable through the previously returned reference (here its
status flips from `queued` to `running`). -/
theorem c3_counterexample :
    (create_jobR ⟨[], 0, []⟩ "j" "q" "Q" "t0").1 = 0 ∧
    hlookup (update_jobR (create_jobR ⟨[], 0, []⟩ "j" "q" "Q" "t0").2 "j"
        { status := some JobStatus.RUNNING } "t1").heap 0 ≠
      hlookup (create_jobR ⟨[], 0, []⟩ "j" "q" "Q" "t0").2.heap 0 := by
  refine ⟨by decide, by decide⟩

/-- C3 (amended).  `create_job` returns the registry's own live record (the
returned reference is exactly the one stored under the new id, so later
updates are visible through it), while `get_job` is a defensive copy: it
returns a freshly allocated reference, distinct from the stored one, holding
the contents at call time, and no subsequent registry update changes the
contents observable through it. -/
theorem c3_theorem :
    (∀ (s : RefState) (jobId q ti t : String),
      nlookup (create_jobR s jobId q ti t).2.jobs jobId =
        some (create_jobR s jobId q ti t).1) ∧
    (∀ s : RefState, WFState s → ∀ (jobId : String) (r' : Nat) (s' : RefState),
      get_jobR s jobId = (some r', s') →
      (∃ r j, nlookup s.jobs jobId = some r ∧ hlookup s.heap r = some j ∧
        hlookup s'.heap r' = some j ∧ r' ≠ r) ∧
      (∀ (jobId2 : String) (c : JobChanges) (t2 : String),
        hlookup (update_jobR s' jobId2 c t2).heap r' = hlookup s'.heap r')) := by
  constructor
  · intro s jobId q ti t
    simp [create_jobR, nlookup]
  · intro s hwf jobId r' s' hget
    unfold get_jobR at hget
    cases hn : nlookup s.jobs jobId with
    | none =>
      rw [hn] at hget
      cases hget
    | some r =>
      rw [hn] at hget
      dsimp only at hget
      cases hh : hlookup s.heap r with
      | none =>
        rw [hh] at hget
        cases hget
      | some j =>
        rw [hh] at hget
        have hr : r < s.next := hwf (jobId, r) (nlookup_mem s.jobs jobId r hn)
        obtain ⟨hr', hs'⟩ : some s.next = some r' ∧
            (⟨(s.next, j) :: s.heap, s.next + 1, s.jobs⟩ : RefState) = s' := by
          simpa [Prod.ext_iff] using hget
        obtain rfl : s.next = r' := by simpa using hr'
        subst hs'
        constructor
        · refine ⟨r, j, rfl, hh, ?_, ?_⟩
          · show hlookup ((s.next, j) :: s.heap) s.next = some j
            unfold hlookup
            rw [if_pos rfl]
          · omega
        · intro jobId2 c t2
          unfold update_jobR
          cases hn2 : nlookup s.jobs jobId2 with
          | none => rfl
          | some r2 =>
            dsimp only
            cases hh2 : hlookup ((s.next, j) :: s.heap) r2 with
            | none => rfl
            | some j2 =>
              dsimp only
              have hr2 : r2 < s.next := hwf (jobId2, r2) (nlookup_mem s.jobs jobId2 r2 hn2)
              show hlookup (hwrite ((s.next, j) :: s.heap) r2 (applyChanges j2 c t2))
                  s.next = hlookup ((s.next, j) :: s.heap) s.next
              rw [hlookup_hwrite_ne r2 s.next (applyChanges j2 c t2) (by omega)]

/-- C3 witness: a concrete get-snapshot is unaffected by a later update to
the same job. -/
theorem c3_witness :
    hlookup (update_jobR ⟨[(1, initJob "j" "q" "Q" "t0"), (0, initJob "j" "q" "Q" "t0")],
        2, [("j", 0)]⟩ "j" { status := some JobStatus.RUNNING } "t1").heap 1 =
      hlookup (⟨[(1, initJob "j" "q" "Q" "t0"), (0, initJob "j" "q" "Q" "t0")],
        2, [("j", 0)]⟩ : RefState).heap 1 :=
  ((c3_theorem.2 ⟨[(0, initJob "j" "q" "Q" "t0")], 1, [("j", 0)]⟩ (by unfold WFState; decide) "j" 1
    ⟨[(1, initJob "j" "q" "Q" "t0"), (0, initJob "j" "q" "Q" "t0")], 2, [("j", 0)]⟩
    (by decide)).2) "j" { status := some JobStatus.RUNNING } "t1"

end DeeSweets
